import Mathlib

/-!
Verification development for the hashi DNS reconciliation service.

The JavaScript source is shallowly embedded: pure functions become Lean
functions, the external zone API and the output file become explicit state,
network effects (DNS attempts, TCP port probes, REST responses) become
oracle parameters, and machine integers become Nat/Int with explicit
32-bit wrapping where JavaScript bit operators are involved.
-/

namespace Hashi

/-! ## String helpers (JavaScript string semantics on char lists) -/

/-- Splits a char list at every occurrence of the separator character,
JavaScript String.split semantics for a single-character separator
(the result is never empty; adjacent separators yield empty pieces). -/
def splitAuxC (sep : Char) : List Char → List Char → List (List Char)
  | [], acc => [acc.reverse]
  | c :: cs, acc =>
      if c = sep then acc.reverse :: splitAuxC sep cs []
      else splitAuxC sep cs (c :: acc)

/-- JavaScript s.split(sep) for a one-character separator. -/
def splitOnC (sep : Char) (s : String) : List String :=
  (splitAuxC sep s.data []).map (fun l => String.mk l)

/-- Whether the first list is an initial segment of the second. -/
def listStarts : List Char → List Char → Bool
  | [], _ => true
  | _ :: _, [] => false
  | p :: ps, c :: cs => p = c && listStarts ps cs

/-- JavaScript s.startsWith(p). -/
def strStarts (s p : String) : Bool := listStarts p.data s.data

/-- Whether the pattern occurs as a contiguous sublist. -/
def listHasSub (pat : List Char) : List Char → Bool
  | [] => listStarts pat []
  | c :: cs => listStarts pat (c :: cs) || listHasSub pat cs

/-- JavaScript s.includes(p). -/
def strHasSub (s p : String) : Bool := listHasSub p.data s.data

/-- JavaScript s.endsWith(p) for a one-character pattern. -/
def endsWithChar (s : String) (c : Char) : Bool :=
  match s.data.getLast? with
  | some d => d = c
  | none => false

/-- JavaScript value.replace(/\.$/, ''): strips at most one trailing dot. -/
def stripDot (s : String) : String :=
  if endsWithChar s '.' then String.mk (s.data.dropLast) else s

/-- Appends a trailing dot unless one is already present; this is the
normalisation createRecord/updateRecord apply to CNAME values. -/
def dotify (s : String) : String :=
  if endsWithChar s '.' then s else s ++ "."

/-- Replaces the first occurrence of a nonempty pattern, JavaScript
String.replace with a plain-string pattern. -/
def replaceFirstL (pat rep : List Char) : List Char → List Char
  | [] => []
  | c :: cs =>
      if listStarts pat (c :: cs) then rep ++ (c :: cs).drop pat.length
      else c :: replaceFirstL pat rep cs

/-- JavaScript s.replace(pat, rep) for plain-string pat. -/
def strReplaceFirst (s pat rep : String) : String :=
  if pat.data.isEmpty then String.mk (rep.data ++ s.data)
  else String.mk (replaceFirstL pat.data rep.data s.data)

/-- Lower-cases ASCII letters, modelling JavaScript toLowerCase on the
ASCII strings this configuration works with. -/
def lowerC (c : Char) : Char :=
  if 'A' ≤ c ∧ c ≤ 'Z' then Char.ofNat (c.toNat + 32) else c

/-- ASCII lower-casing of a string. -/
def strLower (s : String) : String := String.mk (s.data.map lowerC)

/-- Association-list lookup, the model of JavaScript object / Map
reads (first matching key wins; insertion keeps keys unique). -/
def alookup {α : Type} : List (String × α) → String → Option α
  | [], _ => none
  | (k, v) :: rest, n => if n = k then some v else alookup rest n

/-! ## JavaScript number parsing and 32-bit operators -/

/-- Numeric value of a maximal leading run of decimal digits. -/
def digitsToNat (cs : List Char) : Nat :=
  cs.foldl (fun n c => n * 10 + (c.toNat - 48)) 0

/-- JavaScript Number.parseInt(s, 10): skip leading whitespace, optional
sign, then a maximal run of decimal digits; none models NaN. -/
def jsParseInt (s : String) : Option Int :=
  let cs := s.data.dropWhile (fun c => c.isWhitespace)
  let signAndRest : Int × List Char :=
    match cs with
    | '-' :: rest => (-1, rest)
    | '+' :: rest => (1, rest)
    | _ => (1, cs)
  let ds := signAndRest.2.takeWhile (fun c => c.isDigit)
  if ds.isEmpty then none else some (signAndRest.1 * (digitsToNat ds : Int))

/-- JavaScript ToUint32. -/
def toUint32 (n : Int) : Nat := (n % (2 ^ 32 : Int)).toNat

/-- JavaScript ToInt32. -/
def toInt32 (n : Int) : Int :=
  let m := n % (2 ^ 32 : Int)
  if m < 2 ^ 31 then m else m - 2 ^ 32

/-- JavaScript shift count: ToUint32 of the operand, masked to 5 bits. -/
def jsShiftCount (n : Int) : Nat := toUint32 n % 32

/-- JavaScript a << b on 32-bit integers. -/
def jsShl (a b : Int) : Int := toInt32 (toInt32 a * (2 ^ jsShiftCount b : Int))

/-- JavaScript ~a. -/
def jsNot (a : Int) : Int := -(toInt32 a) - 1

/-- Bitwise AND of the low 32 bits, fuel-structured so the kernel can
evaluate it; models the JavaScript & operator applied to two values
already in the unsigned 32-bit range. -/
def landAux : Nat → Nat → Nat → Nat
  | _, _, 0 => 0
  | a, b, Nat.succ k =>
      (if a % 2 = 1 ∧ b % 2 = 1 then 1 else 0) + 2 * landAux (a / 2) (b / 2) k

/-- 32-bit bitwise AND. -/
def jsAnd32 (a b : Nat) : Nat := landAux a b 32

/-! ## TopologyResolver.ipToNumber / ipInSubnet (src/core/topology.js 41-70,
identical code in the Gatus generator) -/

/-- Loop body of ipToNumber: per part, parseInt base 10, reject NaN and
values outside 0..255, accumulate num * 256 + val.  The JavaScript
(num << 8) + val followed by the final num >>> 0 equals this plain
accumulation because four octets in 0..255 always fit 32 bits. -/
def ipToNumberGo : List String → Nat → Option Nat
  | [], num => some num
  | p :: rest, num =>
      match jsParseInt p with
      | none => none
      | some v => if v < 0 ∨ 255 < v then none else ipToNumberGo rest (num * 256 + v.toNat)

/-- TopologyResolver.ipToNumber: dotted-quad to 32-bit value, null on a
wrong part count or an invalid octet. -/
def ipToNumber (ip : String) : Option Nat :=
  let parts := splitOnC '.' ip
  if parts.length ≠ 4 then none else ipToNumberGo parts 0

/-- The mask ~((1 << (32 - prefix)) - 1) >>> 0 with JavaScript operator
semantics; none models the NaN produced when the prefix part is missing
or unparsable. -/
def maskFor (po : Option Int) : Nat :=
  let shifted : Int :=
    match po with
    | none => 1
    | some p => jsShl 1 (32 - p)
  toUint32 (jsNot (shifted - 1))

/-- TopologyResolver.ipInSubnet: splits the CIDR string on '/', converts
both addresses, and compares the masked 32-bit values; any conversion
failure yields false. -/
def ipInSubnet (ip subnet : String) : Bool :=
  let sparts := splitOnC '/' subnet
  let subnetIp := sparts.headD ""
  let po : Option Int :=
    match sparts with
    | _ :: pstr :: _ => jsParseInt pstr
    | _ => none
  match ipToNumber ip, ipToNumber subnetIp with
  | some ipNum, some subnetNum =>
      let mask := maskFor po
      jsAnd32 ipNum mask == jsAnd32 subnetNum mask
  | _, _ => false

/-- TopologyResolver.ipToSubnet: validates the dotted quad and rebuilds
the containing /24 block. -/
def ipToSubnet (ip : String) : Option String :=
  let parts := splitOnC '.' ip
  if parts.length ≠ 4 then none
  else
    let valid := parts.all (fun part =>
      match jsParseInt part with
      | none => false
      | some v => 0 ≤ v ∧ v ≤ 255)
    if valid then
      some (parts.headD "" ++ "." ++ (parts.drop 1).headD "" ++ "." ++
            (parts.drop 2).headD "" ++ ".0/24")
    else none

/-! ## GatusConfigGenerator.detectProtocolAndPort (part_002 lines 240-342) -/

/-- GatusConfigGenerator.PORT_PROTOCOLS: the fixed port-to-protocol table. -/
def PORT_PROTOCOLS (port : Int) : Option String :=
  if port = 8443 then some "https"
  else if port = 8006 then some "https"
  else if port = 8080 then some "http"
  else if port = 587 then some "starttls"
  else if port = 465 then some "tls"
  else if port = 993 then some "tls"
  else if port = 443 then some "https"
  else if port = 80 then some "http"
  else if port = 123 then some "udp"
  else if port = 53 then some "dns"
  else if port = 21 then some "tcp"
  else none

/-- GatusConfigGenerator.CHECK_ORDER: the fixed ordered probe list. -/
def CHECK_ORDER : List Int := [8443, 8006, 8080, 21, 443, 80, 587, 465, 993, 123, 53]

/-- The probe loop of detectProtocolAndPort: try each candidate port in
order, return the protocol of the first one the oracle reports open. -/
def probePorts (isOpen : Int → Bool) : List Int → String × Int
  | [] => ("icmp", 0)
  | p :: rest =>
      if isOpen p then ((PORT_PROTOCOLS p).getD "tcp", p)
      else probePorts isOpen rest

/-- GatusConfigGenerator.detectProtocolAndPort.  The per-subdomain port
override map is a partial function (JavaScript object lookup); the TCP
connect outcome per port is the oracle isOpen (the target host is fixed
by the caller).  The JavaScript guard is `subdomain &&
portOverrides[subdomain] !== undefined`, so an empty subdomain skips the
override path. -/
def detectProtocolAndPort (portOverrides : String → Option Int)
    (isOpen : Int → Bool) (subdomain : String) : String × Int :=
  match (if subdomain = "" then none else portOverrides subdomain) with
  | some port => ((PORT_PROTOCOLS port).getD "tcp", port)
  | none => probePorts isOpen CHECK_ORDER

/-! ## PangolinAPI response-shape extraction (part_001 lines 44-178) -/

/-- A JSON value, the shape returned by response.json(). -/
inductive JValue where
  | null : JValue
  | bool (b : Bool) : JValue
  | num (n : Int) : JValue
  | str (s : String) : JValue
  | arr (xs : List JValue) : JValue
  | obj (fields : List (String × JValue)) : JValue

/-- Field lookup on an object; none models JavaScript undefined
(missing key or a non-object receiver under optional chaining). -/
def jField (k : String) : JValue → Option JValue
  | .obj fs => alookup fs k
  | _ => none

/-- JavaScript truthiness of a defined value. -/
def jTruthy : JValue → Bool
  | .null => false
  | .bool b => b
  | .num n => n != 0
  | .str s => s != ""
  | .arr _ => true
  | .obj _ => true

/-- Truthiness of a possibly-undefined value. -/
def jTruthyOpt : Option JValue → Bool
  | some v => jTruthy v
  | none => false

/-- Whether Array.isArray holds. -/
def jIsArr : JValue → Bool
  | .arr _ => true
  | _ => false

/-- PangolinAPI.listOrgs result extraction (part_001 lines 49-63): bare
array; else, for an object, data.orgs if truthy, else data when data is
an array, else top-level orgs if truthy; else the empty list.  A null
body enters the object branch in JavaScript and the resulting TypeError
is caught by the surrounding try, which also returns the empty list. -/
def listOrgsExtract (data : JValue) : JValue :=
  match data with
  | .arr xs => .arr xs
  | .obj _ =>
      let nested := (jField "data" data).bind (jField "orgs")
      if jTruthyOpt nested then nested.getD (.arr [])
      else if jTruthyOpt ((jField "data" data).filter jIsArr) then
        (jField "data" data).getD (.arr [])
      else if jTruthyOpt (jField "orgs" data) then (jField "orgs" data).getD (.arr [])
      else .arr []
  | _ => .arr []

/-- PangolinAPI.listResources result extraction (part_001 lines 126-137),
same ordered checks keyed on "resources". -/
def listResourcesExtract (data : JValue) : JValue :=
  match data with
  | .arr xs => .arr xs
  | .obj _ =>
      let nested := (jField "data" data).bind (jField "resources")
      if jTruthyOpt nested then nested.getD (.arr [])
      else if jTruthyOpt ((jField "data" data).filter jIsArr) then
        (jField "data" data).getD (.arr [])
      else if jTruthyOpt (jField "resources" data) then (jField "resources" data).getD (.arr [])
      else .arr []
  | _ => .arr []

/-- PangolinAPI.getResourceTargets result extraction (part_001 lines
157-173), same ordered checks keyed on "targets". -/
def getResourceTargetsExtract (data : JValue) : JValue :=
  match data with
  | .arr xs => .arr xs
  | .obj _ =>
      let nested := (jField "data" data).bind (jField "targets")
      if jTruthyOpt nested then nested.getD (.arr [])
      else if jTruthyOpt ((jField "data" data).filter jIsArr) then
        (jField "data" data).getD (.arr [])
      else if jTruthyOpt (jField "targets" data) then (jField "targets" data).getD (.arr [])
      else .arr []
  | _ => .arr []

/-- Modelled from the spec: the ordered shape-resolution policy of
section 4.2, generic in the key — is-array first, then nested under
data.key, then an array directly under data, then the top-level key,
first match wins, else the empty result.  "Present" is read as the
code's duck-typed check: defined and JavaScript-truthy. -/
def specShapePolicy (key : String) (data : JValue) : JValue :=
  if jIsArr data then data
  else
    match data with
    | .obj _ =>
        if jTruthyOpt ((jField "data" data).bind (jField key)) then
          ((jField "data" data).bind (jField key)).getD (.arr [])
        else if jTruthyOpt ((jField "data" data).filter jIsArr) then
          (jField "data" data).getD (.arr [])
        else if jTruthyOpt (jField key data) then (jField key data).getD (.arr [])
        else .arr []
    | _ => .arr []

/-! ## queryTXT with retries (part_005 lines 25-97) and
TopologyResolver.getHostSubnetMapping (src/core/topology.js 77-113) -/

/-- MAX_RETRIES from the DNS utility module. -/
def MAX_RETRIES : Nat := 3

/-- RETRY_DELAY_MS from the DNS utility module. -/
def RETRY_DELAY_MS : Nat := 2000

/-- Execution trace of the retry loop: how many attempts ran and which
sleeps were performed between them. -/
structure RetryTrace where
  attemptsMade : Nat
  sleeps : List Nat
deriving DecidableEq

/-- The retry loop of queryTXT: attempt numbers count from 1; on failure
before the last allowed attempt the loop sleeps RETRY_DELAY_MS and
retries; after the last attempt the last error is thrown.  The oracle
gives each attempt's outcome. -/
def queryTXTGo (attempts : Nat → Except String String) :
    Nat → Nat → Except String String × RetryTrace
  | i, 0 =>
      (attempts i, ⟨1, []⟩)
  | i, Nat.succ k =>
      match attempts i with
      | .ok v => (.ok v, ⟨1, []⟩)
      | .error _ =>
          let rest := queryTXTGo attempts (i + 1) k
          (rest.1, ⟨rest.2.attemptsMade + 1, RETRY_DELAY_MS :: rest.2.sleeps⟩)

/-- queryTXT with retries, returning the result together with its trace. -/
def queryTXTTraced (attempts : Nat → Except String String) :
    Except String String × RetryTrace :=
  queryTXTGo attempts 1 (MAX_RETRIES - 1)

/-- queryTXT result alone. -/
def queryTXT (attempts : Nat → Except String String) : Except String String :=
  (queryTXTTraced attempts).1

/-- JavaScript entry.trim() restricted to whitespace stripping. -/
def strTrim (s : String) : String :=
  String.mk ((s.data.dropWhile (fun c => c.isWhitespace)).reverse.dropWhile
    (fun c => c.isWhitespace)).reverse

/-- One topology entry "hostname:ip": skipped when no colon is present
or the IP has no valid /24 subnet; otherwise yields the mapping entry
keyed "on." ++ hostname.  split(':', 2) keeps only the first two parts. -/
def parseTopologyEntry (entry : String) : Option (String × String) :=
  let trimmed := strTrim entry
  if strHasSub trimmed ":" = false then none
  else
    let parts := splitOnC ':' trimmed
    let hostname := strTrim (parts.headD "")
    let ip := strTrim ((parts.drop 1).headD "")
    match ipToSubnet ip with
    | some subnet => some ("on." ++ hostname, subnet)
    | none => none

/-- JavaScript object insertion with later-assignment-wins semantics on
an association list whose insertion order is preserved. -/
def mapSet {α : Type} (m : List (String × α)) (k : String) (v : α) :
    List (String × α) :=
  if (alookup m k).isSome then
    m.map (fun p => if p.1 = k then (k, v) else p)
  else m ++ [(k, v)]

/-- One step of the getHostSubnetMapping parsing loop. -/
def ptStep (m : List (String × String)) (entry : String) : List (String × String) :=
  match parseTopologyEntry entry with
  | some e => mapSet m e.1 e.2
  | none => m

/-- The parsing loop of getHostSubnetMapping over the comma-separated
TXT payload. -/
def parseTopology (txt : String) : List (String × String) :=
  (splitOnC ',' txt).foldl ptStep []

/-- TopologyResolver.getHostSubnetMapping: queries the TXT record (with
retries) and parses it; any error is caught and yields the empty
mapping. -/
def getHostSubnetMapping (attempts : Nat → Except String String) :
    List (String × String) :=
  match queryTXT attempts with
  | .error _ => []
  | .ok txt => parseTopology txt

/-- TopologyResolver.getCnameForIp: first mapping entry whose subnet
contains the IP. -/
def getCnameForIp (ip : String) (mapping : List (String × String)) : Option String :=
  match mapping.find? (fun p => ipInSubnet ip p.2) with
  | some p => some p.1
  | none => none

/-! ## HetznerDNS zone model (part_002 lines 80-218)

The external zone API is modelled as a list of record sets keyed by
(name, type).  listRecords flattens each set to one flat record per
value with the composite id "name:type".  createRecord and updateRecord
both end up setting the value list of the (name, type) record set (the
API's POST /rrsets and set_records action); deleteRecord removes the
whole record set named by the id split on ':'. -/

/-- One record set of the zone. -/
structure RRSet where
  name : String
  rtype : String
  values : List String
deriving DecidableEq

/-- A flattened record as produced by HetznerDNS.listRecords. -/
structure ZRecord where
  id : String
  name : String
  rtype : String
  value : String
deriving DecidableEq

/-- Flattening of one record set. -/
def expandRRSet (rs : RRSet) : List ZRecord :=
  rs.values.map (fun v => ⟨rs.name ++ ":" ++ rs.rtype, rs.name, rs.rtype, v⟩)

/-- HetznerDNS.listRecords over the zone state. -/
def listRecords (z : List RRSet) : List ZRecord :=
  match z with
  | [] => []
  | rs :: rest => expandRRSet rs ++ listRecords rest

/-- Whether a record set carries the given key. -/
def rsKeyIs (name rtype : String) (rs : RRSet) : Bool :=
  rs.name == name && rs.rtype == rtype

/-- Sets the value list of the (name, type) record set, creating it at
the end when absent. -/
def setRRSet (z : List RRSet) (name rtype : String) (vals : List String) :
    List RRSet :=
  if z.any (rsKeyIs name rtype) then
    z.map (fun rs => if rsKeyIs name rtype rs then ⟨name, rtype, vals⟩ else rs)
  else z ++ [⟨name, rtype, vals⟩]

/-- Removes the (name, type) record set. -/
def removeRRSet (z : List RRSet) (name rtype : String) : List RRSet :=
  z.filter (fun rs => !(rsKeyIs name rtype rs))

/-- HetznerDNS.createRecord: CNAME values get a trailing dot appended
when missing, then the record set is created. -/
def createRecord (z : List RRSet) (name rtype value : String) : List RRSet :=
  let finalValue := if rtype == "CNAME" && !(endsWithChar value '.') then value ++ "." else value
  setRRSet z name rtype [finalValue]

/-- HetznerDNS.updateRecord: same dot normalisation, then set_records
replaces the record set's value list. -/
def updateRecord (z : List RRSet) (name rtype value : String) : List RRSet :=
  let finalValue := if rtype == "CNAME" && !(endsWithChar value '.') then value ++ "." else value
  setRRSet z name rtype [finalValue]

/-- HetznerDNS.deleteRecord: destructures "name:type" from the record id
by splitting on ':' (extra parts are dropped; a missing type part would
be the string "undefined" in the request path) and deletes that record
set. -/
def deleteRecordById (z : List RRSet) (recordId : String) : List RRSet :=
  match splitOnC ':' recordId with
  | n :: t :: _ => removeRRSet z n t
  | [n] => removeRRSet z n "undefined"
  | [] => z

/-! ## DNSSync.syncHetznerDns (part_003 lines 205-295) -/

/-- A mutation call issued against the zone API. -/
inductive ZoneCall where
  | create (name rtype value : String) : ZoneCall
  | update (name rtype value : String) : ZoneCall
  | delete (recordId : String) : ZoneCall
deriving DecidableEq

/-- The configuration fields syncHetznerDns reads. -/
structure SyncConfig where
  domain : String
  ignoreSubdomains : List String
  keepSubdomains : List String
deriving DecidableEq

/-- A desired domain-to-CNAME pair as built by
getPangolinDomainCnamePairs. -/
structure Pair where
  name : String
  domain : String
  subdomain : String
  cname : String
  cname_full : String
  is_root : Bool
  resource_name : String
  target : String
  port : Int
  protocol : String
deriving DecidableEq

/-- Whether a stripped CNAME value references a topology hostname:
value.startsWith('on.') || value.includes('.on.'). -/
def managedVal (v : String) : Bool :=
  strStarts v "on." || strHasSub v ".on."

/-- The classification step feeding the currentCnames map: only CNAME
records whose stripped value is managed enter, keyed by record name and
carrying (stripped value, record id). -/
def cnameEntry? (r : ZRecord) : Option (String × String × String) :=
  if r.rtype == "CNAME" then
    if managedVal (stripDot r.value) then some (r.name, stripDot r.value, r.id) else none
  else none

/-- One step of the currentCnames build loop. -/
def ccStep (m : List (String × String × String)) (r : ZRecord) :
    List (String × String × String) :=
  match cnameEntry? r with
  | some e => mapSet m e.1 e.2
  | none => m

/-- Build lookup of current CNAME records pointing to on.* (a JavaScript
Map keyed by record name, later records overwriting earlier ones). -/
def currentCnamesOf (records : List ZRecord) : List (String × String × String) :=
  records.foldl ccStep []

/-- One step of the expected-records build loop. -/
def ecStep (cfg : SyncConfig) (m : List (String × String)) (p : Pair) :
    List (String × String) :=
  if cfg.ignoreSubdomains.contains p.subdomain then m
  else if p.is_root &&
      (cfg.ignoreSubdomains.contains "@" || cfg.ignoreSubdomains.contains "" ||
       cfg.ignoreSubdomains.contains cfg.domain) then m
  else mapSet m (if p.is_root then "@" else p.subdomain) p.cname_full

/-- Build expected records from the desired pairs, honouring the ignore
list and the root aliases; key '@' for root pairs, else the subdomain. -/
def expectedCnamesOf (cfg : SyncConfig) (pairs : List Pair) :
    List (String × String) :=
  pairs.foldl (ecStep cfg) []

/-- One step of the orphan-deletion phase: entries whose name is
expected are left alone, kept names are skipped with a log line,
everything else is deleted through the zone API. -/
def delStep (expected : List (String × String)) (keep : List String)
    (acc : List RRSet × List ZoneCall) (e : String × String × String) :
    List RRSet × List ZoneCall :=
  if (alookup expected e.1).isSome then acc
  else if keep.contains e.1 then acc
  else (deleteRecordById acc.1 e.2.2, acc.2 ++ [.delete e.2.2])

/-- The orphan-deletion phase folded over the currentCnames entries. -/
def delPhase (expected : List (String × String)) (keep : List String)
    (z : List RRSet) (entries : List (String × String × String)) :
    List RRSet × List ZoneCall :=
  entries.foldl (delStep expected keep) (z, [])

/-- One step of the upsert phase: update on a value mismatch (after
stripping trailing dots on both sides), no-op on a match, create when
the name has no current managed record. -/
def upsStep (current : List (String × String × String))
    (acc : List RRSet × List ZoneCall) (e : String × String) :
    List RRSet × List ZoneCall :=
  let targetClean := stripDot e.2
  match alookup current e.1 with
  | some (v, _) =>
      if v ≠ targetClean then
        (updateRecord acc.1 e.1 "CNAME" e.2, acc.2 ++ [.update e.1 "CNAME" e.2])
      else acc
  | none => (createRecord acc.1 e.1 "CNAME" e.2, acc.2 ++ [.create e.1 "CNAME" e.2])

/-- The upsert phase folded over the expected entries. -/
def upsPhase (current : List (String × String × String))
    (z : List RRSet) (entries : List (String × String)) :
    List RRSet × List ZoneCall :=
  entries.foldl (upsStep current) (z, [])

/-- Result of one reconciliation: the zone state after convergence, the
mutation calls issued in order, and the refreshed record listing
returned to the caller. -/
structure SyncResult where
  zone : List RRSet
  calls : List ZoneCall
  records : List ZRecord
deriving DecidableEq

/-- DNSSync.syncHetznerDns.  zoneOk is whether getZoneId resolved (on
failure the function returns the empty listing without touching the
zone).  Deletions run strictly before creates and updates, exactly as in
the source. -/
def syncHetznerDns (cfg : SyncConfig) (zoneOk : Bool) (pairs : List Pair)
    (z : List RRSet) : SyncResult :=
  if !zoneOk then ⟨z, [], []⟩
  else
    let currentRecords := listRecords z
    let currentCnames := currentCnamesOf currentRecords
    let expectedCnames := expectedCnamesOf cfg pairs
    let afterDel := delPhase expectedCnames cfg.keepSubdomains z currentCnames
    let afterUps := upsPhase currentCnames afterDel.1 expectedCnames
    ⟨afterUps.1, afterDel.2 ++ afterUps.2, listRecords afterUps.1⟩

/-! ## Lemmas about association-list maps -/

theorem alookup_append {α : Type} (m1 m2 : List (String × α)) (n : String) :
    alookup (m1 ++ m2) n =
      match alookup m1 n with
      | some v => some v
      | none => alookup m2 n := by
  induction m1 with
  | nil => simp [alookup]
  | cons p rest ih =>
      rcases p with ⟨k, v⟩
      by_cases h : n = k <;> simp [alookup, h, ih]

theorem alookup_replaceKey {α : Type} (m : List (String × α)) (k n : String) (v : α) :
    alookup (m.map (fun p => if p.1 = k then (k, v) else p)) n =
      if n = k then
        (match alookup m k with
         | some _ => some v
         | none => none)
      else alookup m n := by
  induction m with
  | nil => by_cases h : n = k <;> simp [alookup, h]
  | cons p rest ih =>
      rcases p with ⟨k', v'⟩
      simp only [List.map_cons]
      by_cases hk : k' = k
      · subst hk
        rw [show (if ((k', v') : String × α).1 = k' then (k', v) else (k', v')) = (k', v) from by simp]
        by_cases hn : n = k'
        · subst hn; simp [alookup]
        · simp [alookup, hn, ih]
      · rw [show (if ((k', v') : String × α).1 = k then (k, v) else (k', v')) = (k', v') from by simp [hk]]
        by_cases hn : n = k'
        · subst hn
          simp [alookup, hk, Ne.symm hk]
        · have hkk : (k = k') = False := by
            simp only [eq_iff_iff, iff_false]
            intro h; exact hk h.symm
          simp [alookup, hn, ih, hkk]

theorem alookup_mapSet {α : Type} (m : List (String × α)) (k n : String) (v : α) :
    alookup (mapSet m k v) n = if n = k then some v else alookup m n := by
  unfold mapSet
  by_cases h : (alookup m k).isSome
  · rw [if_pos h, alookup_replaceKey]
    rcases hk : alookup m k with _ | w
    · rw [hk] at h; simp at h
    · simp
  · rw [if_neg h, alookup_append]
    rcases hk : alookup m k with _ | w
    · by_cases hn : n = k
      · subst hn; simp [hk, alookup]
      · simp [hn]
        rcases hm : alookup m n with _ | u <;> simp [alookup, hn]
    · rw [hk] at h; simp at h

theorem mem_mapSet {α : Type} {m : List (String × α)} {k : String} {v : α}
    {x : String × α} (hx : x ∈ mapSet m k v) : x = (k, v) ∨ x ∈ m := by
  unfold mapSet at hx
  by_cases h : (alookup m k).isSome
  · rw [if_pos h] at hx
    rcases List.mem_map.mp hx with ⟨y, hy, hxy⟩
    by_cases hk : y.1 = k
    · left; rw [← hxy]; simp [hk]
    · right; rw [← hxy]; simpa [hk] using hy
  · rw [if_neg h] at hx
    rcases List.mem_append.mp hx with h1 | h1
    · right; exact h1
    · left; simpa using h1

/-- Keys of an association map, in order. -/
def mapKeys {α : Type} (m : List (String × α)) : List String := m.map Prod.fst

/-- Key uniqueness invariant maintained by mapSet. -/
def UniqKeys {α : Type} (m : List (String × α)) : Prop := (mapKeys m).Nodup

theorem alookup_isSome_iff_mem_keys {α : Type} (m : List (String × α)) (n : String) :
    (alookup m n).isSome ↔ n ∈ mapKeys m := by
  induction m with
  | nil => simp [alookup, mapKeys]
  | cons p rest ih =>
      rcases p with ⟨k, v⟩
      by_cases h : n = k
      · simp [alookup, mapKeys, h]
      · simp only [alookup, mapKeys, List.map_cons, List.mem_cons, h, if_neg]
        simp [h]
        simpa [mapKeys] using ih

theorem uniqKeys_mapSet {α : Type} {m : List (String × α)} (k : String) (v : α)
    (hm : UniqKeys m) : UniqKeys (mapSet m k v) := by
  unfold mapSet
  by_cases h : (alookup m k).isSome
  · rw [if_pos h]
    unfold UniqKeys mapKeys
    rw [List.map_map]
    have : m.map (Prod.fst ∘ fun p => if p.1 = k then (k, v) else p) = m.map Prod.fst := by
      apply List.map_congr_left
      intro p _
      by_cases hp : p.1 = k <;> simp [hp]
    rw [this]; exact hm
  · rw [if_neg h]
    unfold UniqKeys mapKeys
    rw [List.map_append, List.nodup_append]
    refine ⟨hm, List.nodup_singleton _, ?_⟩
    intro a ha hb
    simp at hb
    subst hb
    exact h ((alookup_isSome_iff_mem_keys m a).mpr ha)

theorem alookup_some_mem {α : Type} {m : List (String × α)} {n : String} {v : α}
    (h : alookup m n = some v) : (n, v) ∈ m := by
  induction m with
  | nil => simp [alookup] at h
  | cons p rest ih =>
      rcases p with ⟨k, w⟩
      by_cases hn : n = k
      · subst hn
        simp [alookup] at h
        simp [h]
      · simp [alookup, hn] at h
        simp [ih h]

theorem mem_alookup_isSome {α : Type} {m : List (String × α)} {n : String} {v : α}
    (h : (n, v) ∈ m) : (alookup m n).isSome := by
  induction m with
  | nil => simp at h
  | cons p rest ih =>
      rcases p with ⟨k, w⟩
      rcases List.mem_cons.mp h with h1 | h1
      · rw [Prod.mk.injEq] at h1
        simp [alookup, h1.1]
      · by_cases hn : n = k <;> simp [alookup, hn, ih h1]

theorem alookup_of_mem_uniq {α : Type} {m : List (String × α)} {n : String} {v : α}
    (hu : UniqKeys m) (h : (n, v) ∈ m) : alookup m n = some v := by
  induction m with
  | nil => simp at h
  | cons p rest ih =>
      rcases p with ⟨k, w⟩
      unfold UniqKeys mapKeys at hu
      simp at hu
      rcases List.mem_cons.mp h with h1 | h1
      · rw [Prod.mk.injEq] at h1
        simp [alookup, h1.1, h1.2]
      · by_cases hn : n = k
        · subst hn
          exact absurd h1 (hu.1 v)
        · simpa [alookup, hn] using ih hu.2 h1

/-! ## The currentCnames map as a last-wins lookup over the listing -/

/-- First-biased choice on options. -/
def oElse {α : Type} (a b : Option α) : Option α :=
  match a with
  | some x => some x
  | none => b

@[simp] theorem oElse_some {α : Type} (x : α) (b : Option α) :
    oElse (some x) b = some x := rfl

@[simp] theorem oElse_none_left {α : Type} (b : Option α) : oElse none b = b := rfl

@[simp] theorem oElse_none_right {α : Type} (a : Option α) : oElse a none = a := by
  cases a <;> rfl

theorem oElse_assoc {α : Type} (a b c : Option α) :
    oElse (oElse a b) c = oElse a (oElse b c) := by
  cases a <;> rfl

/-- The currentCnames candidate a single flattened record contributes
for the name n. -/
def entryFor (n : String) (r : ZRecord) : Option (String × String) :=
  match cnameEntry? r with
  | some e => if e.1 = n then some e.2 else none
  | none => none

/-- The last managed-CNAME entry for the name n in a record listing:
this is the value the JavaScript Map holds after the build loop, since
later Map.set calls overwrite earlier ones. -/
def lastMEntry (n : String) : List ZRecord → Option (String × String)
  | [] => none
  | r :: rest => oElse (lastMEntry n rest) (entryFor n r)

theorem lastMEntry_append (n : String) (l1 l2 : List ZRecord) :
    lastMEntry n (l1 ++ l2) = oElse (lastMEntry n l2) (lastMEntry n l1) := by
  induction l1 with
  | nil => simp [lastMEntry]
  | cons r rest ih =>
      show oElse (lastMEntry n (rest ++ l2)) (entryFor n r) = _
      rw [ih, oElse_assoc]
      rfl

theorem alookup_ccStep (init : List (String × String × String)) (r : ZRecord)
    (n : String) : alookup (ccStep init r) n = oElse (entryFor n r) (alookup init n) := by
  unfold ccStep entryFor
  rcases h : cnameEntry? r with _ | e
  · simp
  · rw [alookup_mapSet]
    by_cases hn : n = e.1
    · simp [hn]
    · have : (e.1 = n) = False := by
        simp only [eq_iff_iff, iff_false]
        intro hh; exact hn hh.symm
      simp [hn, this]

theorem alookup_ccFold (records : List ZRecord)
    (init : List (String × String × String)) (n : String) :
    alookup (records.foldl ccStep init) n =
      oElse (lastMEntry n records) (alookup init n) := by
  induction records generalizing init with
  | nil => simp [lastMEntry]
  | cons r rest ih =>
      show alookup (rest.foldl ccStep (ccStep init r)) n = _
      rw [ih, alookup_ccStep]
      show _ = oElse (oElse (lastMEntry n rest) (entryFor n r)) (alookup init n)
      rw [oElse_assoc]

theorem alookup_currentCnamesOf (records : List ZRecord) (n : String) :
    alookup (currentCnamesOf records) n = lastMEntry n records := by
  unfold currentCnamesOf
  rw [alookup_ccFold]
  simp [alookup]

/-! ## The listing's last-wins lookup through the zone operations -/

/-- The managed entry the zone state holds for a name (value and record
id of the overriding record, if any). -/
def Gz (z : List RRSet) (n : String) : Option (String × String) :=
  lastMEntry n (listRecords z)

/-- The last managed value of a record set's value list, stripped. -/
def lastMVal : List String → Option String
  | [] => none
  | v :: rest =>
      oElse (lastMVal rest) (if managedVal (stripDot v) then some (stripDot v) else none)

theorem lastMEntry_expand (n : String) (rs : RRSet) :
    lastMEntry n (expandRRSet rs) =
      if rs.rtype = "CNAME" ∧ rs.name = n then
        (lastMVal rs.values).map (fun w => (w, rs.name ++ ":" ++ rs.rtype))
      else none := by
  rcases rs with ⟨nm, t, vals⟩
  induction vals with
  | nil =>
      simp only [expandRRSet, List.map_nil, lastMEntry, lastMVal, Option.map_none']
      by_cases h : t = "CNAME" ∧ nm = n <;> simp [h]
  | cons v vs ih =>
      show oElse (lastMEntry n (expandRRSet ⟨nm, t, vs⟩)) (entryFor n ⟨nm ++ ":" ++ t, nm, t, v⟩) = _
      rw [ih]
      simp only [entryFor, cnameEntry?]
      by_cases ht : t = "CNAME"
      · by_cases hn : nm = n
        · simp only [ht, hn, true_and, and_true, if_pos rfl]
          rw [show (("CNAME" : String) == "CNAME") = true from by simp]
          simp only [if_pos rfl, lastMVal]
          by_cases hm : managedVal (stripDot v) = true
          · rcases hv : lastMVal vs with _ | w <;> simp [hm, hv, oElse, ht, hn]
          · have hm' : managedVal (stripDot v) = false := by
              rcases hq : managedVal (stripDot v) with _ | _
              · rfl
              · exact absurd hq hm
            rcases hv : lastMVal vs with _ | w <;> simp [hm', hv, oElse, ht, hn]
        · have hc : (t = "CNAME" ∧ nm = n) = False := by
            simp only [eq_iff_iff, iff_false]
            intro hh; exact hn hh.2
          rw [show ((t == "CNAME")) = true from by simp [ht]]
          simp only [hc, if_false]
          by_cases hm : managedVal (stripDot v) = true <;>
            simp [hm, hn, oElse]
      · have hc : (t = "CNAME" ∧ nm = n) = False := by
          simp only [eq_iff_iff, iff_false]
          intro hh; exact ht hh.1
        rw [show ((t == "CNAME")) = false from by simp [ht]]
        simp [hc, oElse]

theorem listRecords_append (z1 z2 : List RRSet) :
    listRecords (z1 ++ z2) = listRecords z1 ++ listRecords z2 := by
  induction z1 with
  | nil => rfl
  | cons rs rest ih =>
      show expandRRSet rs ++ listRecords (rest ++ z2) = _
      rw [ih]
      show _ = expandRRSet rs ++ listRecords rest ++ listRecords z2
      rw [List.append_assoc]

theorem Gz_cons (rs : RRSet) (z : List RRSet) (n : String) :
    Gz (rs :: z) n = oElse (Gz z n) (lastMEntry n (expandRRSet rs)) := by
  unfold Gz
  show lastMEntry n (expandRRSet rs ++ listRecords z) = _
  rw [lastMEntry_append]

theorem Gz_nil (n : String) : Gz [] n = none := rfl

theorem Gz_none_of_not_any {z : List RRSet} {n : String}
    (h : z.any (rsKeyIs n "CNAME") = false) : Gz z n = none := by
  induction z with
  | nil => rfl
  | cons rs rest ih =>
      simp only [List.any_cons, Bool.or_eq_false_iff] at h
      rw [Gz_cons, ih h.2, lastMEntry_expand]
      have : (rs.rtype = "CNAME" ∧ rs.name = n) = False := by
        simp only [eq_iff_iff, iff_false]
        intro hh
        have : rsKeyIs n "CNAME" rs = true := by
          simp [rsKeyIs, hh.1, hh.2]
        rw [this] at h
        exact absurd h.1 (by simp)
      simp [this, oElse]

theorem GzId {z : List RRSet} {n : String} {v id : String}
    (h : Gz z n = some (v, id)) : id = n ++ ":" ++ "CNAME" := by
  induction z with
  | nil => simp [Gz, listRecords, lastMEntry] at h
  | cons rs rest ih =>
      rw [Gz_cons] at h
      rcases hg : Gz rest n with _ | e
      · rw [hg] at h
        simp only [oElse_none_left, lastMEntry_expand] at h
        by_cases hc : rs.rtype = "CNAME" ∧ rs.name = n
        · rw [if_pos hc] at h
          rcases hv : lastMVal rs.values with _ | w
          · rw [hv] at h; simp at h
          · rw [hv] at h
            simp only [Option.map_some'] at h
            have := (Option.some.injEq _ _).mp h
            rw [Prod.mk.injEq] at this
            rw [← this.2, hc.1, hc.2]
        · rw [if_neg hc] at h; simp at h
      · rw [hg] at h
        simp only [oElse_some] at h
        have he := (Option.some.injEq _ _).mp h
        rw [he] at hg
        exact ih hg

/-- Entry an upsert write of the value v leaves behind for a name. -/
def upsCand (n' v : String) : Option (String × String) :=
  if managedVal (stripDot v) then some (stripDot v, n' ++ ":" ++ "CNAME") else none

theorem rsKeyIs_iff (name rtype : String) (rs : RRSet) :
    rsKeyIs name rtype rs = true ↔ rs.name = name ∧ rs.rtype = rtype := by
  simp [rsKeyIs]

theorem Gz_removeRRSet (z : List RRSet) (n' n : String) :
    Gz (removeRRSet z n' "CNAME") n = if n = n' then none else Gz z n := by
  induction z with
  | nil => by_cases h : n = n' <;> simp [removeRRSet, Gz_nil, h]
  | cons rs rest ih =>
      show Gz (List.filter _ (rs :: rest)) n = _
      rw [List.filter_cons]
      by_cases hk : rsKeyIs n' "CNAME" rs = true
      · -- record set removed
        rw [hk]
        simp only [Bool.not_true, Bool.false_eq_true, if_false]
        have hrs := (rsKeyIs_iff n' "CNAME" rs).mp hk
        have step : Gz (List.filter (fun r => !(rsKeyIs n' "CNAME" r)) rest) n =
            Gz (removeRRSet rest n' "CNAME") n := rfl
        rw [step, ih]
        by_cases hn : n = n'
        · rw [if_pos hn, if_pos hn]
        · rw [if_neg hn, if_neg hn, Gz_cons, lastMEntry_expand]
          have : (rs.rtype = "CNAME" ∧ rs.name = n) = False := by
            simp only [eq_iff_iff, iff_false]
            intro hh
            exact hn (hh.2 ▸ hrs.1 ▸ rfl)
          simp [this]
      · -- record set kept
        have hk' : rsKeyIs n' "CNAME" rs = false := by
          rcases hq : rsKeyIs n' "CNAME" rs with _ | _
          · rfl
          · exact absurd hq hk
        rw [hk']
        simp only [Bool.not_false, if_true]
        have step : Gz (rs :: List.filter (fun r => !(rsKeyIs n' "CNAME" r)) rest) n =
            oElse (Gz (removeRRSet rest n' "CNAME") n) (lastMEntry n (expandRRSet rs)) :=
          Gz_cons rs _ n
        rw [step, ih]
        by_cases hn : n = n'
        · subst hn
          rw [if_pos rfl, if_pos rfl, oElse_none_left, lastMEntry_expand]
          have : (rs.rtype = "CNAME" ∧ rs.name = n) = False := by
            simp only [eq_iff_iff, iff_false]
            intro hh
            rw [(rsKeyIs_iff n "CNAME" rs).mpr ⟨hh.2, hh.1⟩] at hk'
            cases hk'
          simp [this]
        · rw [if_neg hn, if_neg hn, Gz_cons]

theorem lastMEntry_expand_single (n n' v : String) :
    lastMEntry n (expandRRSet ⟨n', "CNAME", [v]⟩) =
      if n' = n then upsCand n' v else none := by
  rw [lastMEntry_expand]
  simp only [true_and]
  by_cases hn : n' = n
  · rw [if_pos hn, if_pos hn]
    unfold lastMVal upsCand
    by_cases hm : managedVal (stripDot v) = true
    · simp [hm, lastMVal]
    · have hm' : managedVal (stripDot v) = false := by
        rcases hq : managedVal (stripDot v) with _ | _
        · rfl
        · exact absurd hq hm
      simp [hm', lastMVal]
  · rw [if_neg hn, if_neg hn]

theorem Gz_replaceMap (z : List RRSet) (n' v n : String) :
    Gz (z.map (fun rs => if rsKeyIs n' "CNAME" rs then ⟨n', "CNAME", [v]⟩ else rs)) n =
      if n = n' then
        (if z.any (rsKeyIs n' "CNAME") then upsCand n' v else Gz z n')
      else Gz z n := by
  induction z with
  | nil => by_cases hn : n = n' <;> simp [Gz_nil, hn]
  | cons rs rest ih =>
      simp only [List.map_cons, List.any_cons]
      by_cases hk : rsKeyIs n' "CNAME" rs = true
      · -- head replaced
        simp only [hk, Bool.true_or, eq_self_iff_true, if_true]
        have hrs := (rsKeyIs_iff n' "CNAME" rs).mp hk
        rw [Gz_cons, ih, lastMEntry_expand_single]
        by_cases hn : n = n'
        · subst hn
          rw [if_pos rfl, if_pos rfl, if_pos rfl]
          by_cases ha : rest.any (rsKeyIs n "CNAME") = true
          · rw [ha]
            simp only [if_pos]
            rcases hc : upsCand n v with _ | e <;> simp [hc]
          · have ha' : rest.any (rsKeyIs n "CNAME") = false := by
              rcases hq : rest.any (rsKeyIs n "CNAME") with _ | _
              · rfl
              · exact absurd hq ha
            rw [ha', Gz_none_of_not_any ha']
            simp only [Bool.false_eq_true, if_false, oElse_none_left]
        · rw [if_neg hn, if_neg hn,
            if_neg (by intro hh; exact hn hh.symm : ¬ n' = n)]
          rw [Gz_cons, lastMEntry_expand]
          have : (rs.rtype = "CNAME" ∧ rs.name = n) = False := by
            simp only [eq_iff_iff, iff_false]
            intro hh
            exact hn (hh.2 ▸ hrs.1 ▸ rfl)
          simp [this]
      · -- head untouched
        have hk' : rsKeyIs n' "CNAME" rs = false := by
          rcases hq : rsKeyIs n' "CNAME" rs with _ | _
          · rfl
          · exact absurd hq hk
        simp only [hk', Bool.false_eq_true, if_false, Bool.false_or]
        rw [Gz_cons, ih, Gz_cons]
        have hrsn : (rs.rtype = "CNAME" ∧ rs.name = n') = False := by
          simp only [eq_iff_iff, iff_false]
          intro hh
          rw [(rsKeyIs_iff n' "CNAME" rs).mpr ⟨hh.2, hh.1⟩] at hk'
          cases hk'
        by_cases hn : n = n'
        · subst hn
          rw [if_pos rfl, if_pos rfl]
          by_cases ha : rest.any (rsKeyIs n "CNAME") = true
          · simp only [ha, eq_self_iff_true, if_true]
            rcases hc : upsCand n v with _ | e
            · simp only [oElse_none_left, lastMEntry_expand]
              simp [hrsn]
            · simp
          · have ha' : rest.any (rsKeyIs n "CNAME") = false := by
              rcases hq : rest.any (rsKeyIs n "CNAME") with _ | _
              · rfl
              · exact absurd hq ha
            simp only [ha', Bool.false_eq_true, if_false]
        · rw [if_neg hn, if_neg hn]
          exact (Gz_cons rs rest n).symm

theorem Gz_setRRSet (z : List RRSet) (n' v n : String) :
    Gz (setRRSet z n' "CNAME" [v]) n = if n = n' then upsCand n' v else Gz z n := by
  unfold setRRSet
  by_cases ha : z.any (rsKeyIs n' "CNAME") = true
  · rw [if_pos ha, Gz_replaceMap, ha]
    by_cases hn : n = n' <;> simp [hn]
  · rw [if_neg ha]
    unfold Gz
    rw [listRecords_append, lastMEntry_append]
    have h2 : lastMEntry n (listRecords [(⟨n', "CNAME", [v]⟩ : RRSet)]) =
        if n' = n then upsCand n' v else none := by
      show lastMEntry n (expandRRSet ⟨n', "CNAME", [v]⟩ ++ []) = _
      rw [List.append_nil, lastMEntry_expand_single]
    rw [h2]
    have ha' : z.any (rsKeyIs n' "CNAME") = false := by
      rcases hq : z.any (rsKeyIs n' "CNAME") with _ | _
      · rfl
      · exact absurd hq ha
    by_cases hn : n = n'
    · subst hn
      rw [if_pos rfl, if_pos rfl]
      rcases hc : upsCand n v with _ | e
      · simp only [oElse_none_left]
        exact Gz_none_of_not_any ha'
      · simp
    · rw [if_neg (by intro hh; exact hn hh.symm), if_neg hn, oElse_none_left]

/-! ## Splitting composite record ids -/

theorem bool_eq_false {b : Bool} (h : ¬b = true) : b = false := by
  rcases hq : b with _ | _
  · rfl
  · exact absurd hq h

theorem splitAuxC_no_sep (sep : Char) (cs : List Char) (h : sep ∉ cs) :
    ∀ acc, splitAuxC sep cs acc = [acc.reverse ++ cs] := by
  induction cs with
  | nil => intro acc; simp [splitAuxC]
  | cons c cs ih =>
      intro acc
      have hc : ¬(c = sep) := by
        intro hh; exact h (hh ▸ List.mem_cons_self c cs)
      show (if c = sep then _ else _) = _
      rw [if_neg hc, ih (fun hm => h (List.mem_cons_of_mem c hm)) (c :: acc)]
      simp

theorem splitAuxC_through (sep : Char) (cs rest : List Char) (h : sep ∉ cs) :
    ∀ acc, splitAuxC sep (cs ++ sep :: rest) acc =
      (acc.reverse ++ cs) :: splitAuxC sep rest [] := by
  induction cs with
  | nil =>
      intro acc
      show (if sep = sep then _ else _) = _
      rw [if_pos rfl]
      simp
  | cons c cs ih =>
      intro acc
      have hc : ¬(c = sep) := by
        intro hh; exact h (hh ▸ List.mem_cons_self c cs)
      show (if c = sep then acc.reverse :: splitAuxC sep (cs ++ sep :: rest) []
            else splitAuxC sep (cs ++ sep :: rest) (c :: acc)) = _
      rw [if_neg hc, ih (fun hm => h (List.mem_cons_of_mem c hm)) (c :: acc)]
      simp

theorem splitOnC_colon (s t : String) (hs : ':' ∉ s.data) (ht : ':' ∉ t.data) :
    splitOnC ':' (s ++ ":" ++ t) = [s, t] := by
  unfold splitOnC
  have hdata : (s ++ ":" ++ t).data = s.data ++ ':' :: t.data := by
    rw [String.data_append, String.data_append]
    simp [String.data]
  rw [hdata, splitAuxC_through ':' s.data t.data hs [], splitAuxC_no_sep ':' t.data ht []]
  simp [String.mk]

theorem deleteRecordById_eq (z : List RRSet) (n : String) (hn : ':' ∉ n.data) :
    deleteRecordById z (n ++ ":" ++ "CNAME") = removeRRSet z n "CNAME" := by
  unfold deleteRecordById
  rw [splitOnC_colon n "CNAME" hn (by decide)]

/-! ## The deletion phase -/

/-- Whether the deletion phase removes the name n. -/
def dCond (entries : List (String × String × String))
    (expected : List (String × String)) (keep : List String) (n : String) : Bool :=
  entries.any (fun e => e.1 == n) && !(alookup expected n).isSome && !(keep.contains n)

theorem delStep_fst (E : List (String × String)) (keep : List String)
    (acc : List RRSet × List ZoneCall) (e : String × String × String)
    (hid : e.2.2 = e.1 ++ ":" ++ "CNAME") (hcf : ':' ∉ e.1.data) :
    (delStep E keep acc e).1 =
      if !(alookup E e.1).isSome && !(keep.contains e.1) then
        removeRRSet acc.1 e.1 "CNAME"
      else acc.1 := by
  unfold delStep
  by_cases h1 : (alookup E e.1).isSome
  · rw [if_pos h1]
    have hcond : (!(alookup E e.1).isSome && !(keep.contains e.1)) = false := by
      rw [h1]; rfl
    rw [hcond]
    simp
  · by_cases h2 : keep.contains e.1 = true
    · rw [if_neg h1, if_pos h2]
      have hcond : (!(alookup E e.1).isSome && !(keep.contains e.1)) = false := by
        rw [h2]; simp
      rw [hcond]
      simp
    · rw [if_neg h1, if_neg h2]
      have h2' : keep.contains e.1 = false := by
        rcases hq : keep.contains e.1 with _ | _
        · rfl
        · exact absurd hq h2
      have h1' : (alookup E e.1).isSome = false := by
        rcases hq : (alookup E e.1).isSome with _ | _
        · rfl
        · exact absurd hq h1
      have hcond : (!(alookup E e.1).isSome && !(keep.contains e.1)) = true := by
        rw [h1', h2']; rfl
      rw [hcond]
      simp only [if_true]
      show deleteRecordById acc.1 e.2.2 = removeRRSet acc.1 e.1 "CNAME"
      rw [hid, deleteRecordById_eq acc.1 e.1 hcf]

theorem delPhase_gz (E : List (String × String)) (keep : List String)
    (entries : List (String × String × String))
    (Hids : ∀ e ∈ entries, e.2.2 = e.1 ++ ":" ++ "CNAME" ∧ ':' ∉ e.1.data) :
    ∀ z c n, Gz ((entries.foldl (delStep E keep) (z, c)).1) n =
      if dCond entries E keep n then none else Gz z n := by
  induction entries with
  | nil =>
      intro z c n
      simp [dCond]
  | cons e rest ih =>
      intro z c n
      have He := Hids e (List.mem_cons_self e rest)
      have Hrest : ∀ e' ∈ rest, e'.2.2 = e'.1 ++ ":" ++ "CNAME" ∧ ':' ∉ e'.1.data :=
        fun e' h' => Hids e' (List.mem_cons_of_mem e h')
      show Gz ((rest.foldl (delStep E keep) (delStep E keep (z, c) e)).1) n = _
      have hz' : (rest.foldl (delStep E keep) (delStep E keep (z, c) e)) =
          (rest.foldl (delStep E keep) ((delStep E keep (z, c) e).1,
            (delStep E keep (z, c) e).2)) := by rfl
      rw [hz', ih Hrest]
      rw [delStep_fst E keep (z, c) e He.1 He.2]
      by_cases hact : (!(alookup E e.1).isSome && !(keep.contains e.1)) = true
      · rw [if_pos hact]
        by_cases hn : n = e.1
        · subst hn
          have hc1 : dCond (e :: rest) E keep e.1 = true := by
            simp only [dCond, List.any_cons, beq_self_eq_true, Bool.true_or]
            simpa [dCond] using hact
          rw [hc1]
          simp only [if_true]
          by_cases hr : dCond rest E keep e.1 = true
          · rw [hr]; simp
          · rw [bool_eq_false hr]
            simp only [Bool.false_eq_true, if_false]
            rw [Gz_removeRRSet]
            simp
        · have heq : dCond (e :: rest) E keep n = dCond rest E keep n := by
            simp only [dCond, List.any_cons]
            have : (e.1 == n) = false := by
              rcases hq : e.1 == n with _ | _
              · rfl
              · exact absurd (by simpa using hq : e.1 = n) (fun hh => hn hh.symm)
            rw [this]
            simp
          rw [heq]
          by_cases hr : dCond rest E keep n = true
          · rw [hr]; simp
          · have hr' : dCond rest E keep n = false := by
              rcases hq : dCond rest E keep n with _ | _
              · rfl
              · exact absurd hq hr
            rw [hr']
            simp only [Bool.false_eq_true, if_false]
            rw [Gz_removeRRSet]
            simp [hn]
      · rw [if_neg hact]
        have heq : dCond (e :: rest) E keep n = dCond rest E keep n := by
          by_cases hn : e.1 = n
          · subst hn
            have : (!(alookup E e.1).isSome && !(keep.contains e.1)) = false := by
              rcases hq : (!(alookup E e.1).isSome && !(keep.contains e.1)) with _ | _
              · rfl
              · exact absurd hq hact
            simp only [dCond, Bool.and_assoc] at this ⊢
            rw [this]
            simp [this]
          · simp only [dCond, List.any_cons]
            have : (e.1 == n) = false := by
              rcases hq : e.1 == n with _ | _
              · rfl
              · exact absurd (by simpa using hq : e.1 = n) hn
            rw [this]
            simp
        rw [heq]

theorem delPhase_skip (E : List (String × String)) (keep : List String)
    (entries : List (String × String × String))
    (H : ∀ e ∈ entries, (alookup E e.1).isSome = true ∨ keep.contains e.1 = true) :
    ∀ z c, entries.foldl (delStep E keep) (z, c) = (z, c) := by
  induction entries with
  | nil => intro z c; rfl
  | cons e rest ih =>
      intro z c
      have He := H e (List.mem_cons_self e rest)
      have Hrest : ∀ e' ∈ rest, _ := fun e' h' => H e' (List.mem_cons_of_mem e h')
      show rest.foldl (delStep E keep) (delStep E keep (z, c) e) = (z, c)
      have hstep : delStep E keep (z, c) e = (z, c) := by
        unfold delStep
        rcases He with h | h
        · rw [if_pos h]
        · by_cases h1 : (alookup E e.1).isSome = true
          · rw [if_pos h1]
          · rw [if_neg h1, if_pos h]
      rw [hstep, ih Hrest]

theorem delPhase_calls_mono (E : List (String × String)) (keep : List String)
    (entries : List (String × String × String)) :
    ∀ z c x, x ∈ c → x ∈ (entries.foldl (delStep E keep) (z, c)).2 := by
  induction entries with
  | nil => intro z c x hx; exact hx
  | cons e rest ih =>
      intro z c x hx
      show x ∈ (rest.foldl (delStep E keep) (delStep E keep (z, c) e)).2
      have : x ∈ (delStep E keep (z, c) e).2 := by
        unfold delStep
        by_cases h1 : (alookup E e.1).isSome
        · rw [if_pos h1]; exact hx
        · by_cases h2 : keep.contains e.1 = true
          · rw [if_neg h1, if_pos h2]; exact hx
          · rw [if_neg h1, if_neg h2]
            exact List.mem_append.mpr (Or.inl hx)
      have hsplit : delStep E keep (z, c) e =
          ((delStep E keep (z, c) e).1, (delStep E keep (z, c) e).2) := rfl
      rw [hsplit]
      exact ih _ _ x this

theorem delPhase_calls_sub (E : List (String × String)) (keep : List String)
    (entries : List (String × String × String)) :
    ∀ z c x, x ∈ (entries.foldl (delStep E keep) (z, c)).2 →
      x ∈ c ∨ ∃ e ∈ entries, x = ZoneCall.delete e.2.2 ∧
        (alookup E e.1).isSome = false ∧ keep.contains e.1 = false := by
  induction entries with
  | nil => intro z c x hx; exact Or.inl hx
  | cons e rest ih =>
      intro z c x hx
      have hx' : x ∈ (rest.foldl (delStep E keep)
          ((delStep E keep (z, c) e).1, (delStep E keep (z, c) e).2)).2 := hx
      rcases ih _ _ x hx' with h | ⟨e', he', hprop⟩
      · -- x came from the accumulated calls after the head step
        unfold delStep at h
        by_cases h1 : (alookup E e.1).isSome
        · rw [if_pos h1] at h
          exact Or.inl h
        · by_cases h2 : keep.contains e.1 = true
          · rw [if_neg h1, if_pos h2] at h
            exact Or.inl h
          · rw [if_neg h1, if_neg h2] at h
            rcases List.mem_append.mp h with h3 | h3
            · exact Or.inl h3
            · right
              refine ⟨e, List.mem_cons_self e rest, ?_, ?_, ?_⟩
              · simpa using h3
              · rcases hq : (alookup E e.1).isSome with _ | _
                · rfl
                · exact absurd hq h1
              · rcases hq : keep.contains e.1 with _ | _
                · rfl
                · exact absurd hq h2
      · exact Or.inr ⟨e', List.mem_cons_of_mem e he', hprop⟩

theorem delPhase_calls_mem (E : List (String × String)) (keep : List String)
    (entries : List (String × String × String)) :
    ∀ z c e, e ∈ entries → (alookup E e.1).isSome = false →
      keep.contains e.1 = false →
      ZoneCall.delete e.2.2 ∈ (entries.foldl (delStep E keep) (z, c)).2 := by
  induction entries with
  | nil => intro z c e he; simp at he
  | cons e0 rest ih =>
      intro z c e he h1 h2
      show ZoneCall.delete e.2.2 ∈ (rest.foldl (delStep E keep)
        ((delStep E keep (z, c) e0).1, (delStep E keep (z, c) e0).2)).2
      rcases List.mem_cons.mp he with h | h
      · subst h
        have hc : ZoneCall.delete e.2.2 ∈ (delStep E keep (z, c) e).2 := by
          unfold delStep
          rw [if_neg (by rw [h1]; simp : ¬(alookup E e.1).isSome = true),
              if_neg (by rw [h2]; simp : ¬keep.contains e.1 = true)]
          exact List.mem_append.mpr (Or.inr (List.mem_singleton.mpr rfl))
        exact delPhase_calls_mono E keep rest _ _ _ hc
      · exact ih _ _ e h h1 h2

/-! ## The upsert phase -/

/-- Whether the upsert loop mutates the zone for this expected entry. -/
def upsAction (current : List (String × String × String)) (n t : String) : Bool :=
  match alookup current n with
  | some (v, _) => v != stripDot t
  | none => true

theorem createRecord_cname (z : List RRSet) (n t : String) :
    createRecord z n "CNAME" t = setRRSet z n "CNAME" [dotify t] := by
  unfold createRecord dotify
  by_cases h : endsWithChar t '.' = true <;> simp [h]

theorem updateRecord_cname (z : List RRSet) (n t : String) :
    updateRecord z n "CNAME" t = setRRSet z n "CNAME" [dotify t] := by
  unfold updateRecord dotify
  by_cases h : endsWithChar t '.' = true <;> simp [h]

theorem alookup_none_of_not_mem_keys {α : Type} {m : List (String × α)} {n : String}
    (h : n ∉ mapKeys m) : alookup m n = none := by
  rcases hq : alookup m n with _ | v
  · rfl
  · exact absurd ((alookup_isSome_iff_mem_keys m n).mp (by simp [hq])) h

theorem upsPhase_gz (cur : List (String × String × String))
    (entries : List (String × String)) (hu : UniqKeys entries) :
    ∀ z c n, Gz ((entries.foldl (upsStep cur) (z, c)).1) n =
      match alookup entries n with
      | some t => if upsAction cur n t then upsCand n (dotify t) else Gz z n
      | none => Gz z n := by
  induction entries with
  | nil => intro z c n; simp [alookup]
  | cons e rest ih =>
      rcases e with ⟨en, et⟩
      intro z c n
      have hkey : en ∉ mapKeys rest := by
        unfold UniqKeys mapKeys at hu
        simp only [List.map_cons, List.nodup_cons] at hu
        exact hu.1
      have hurest : UniqKeys rest := by
        unfold UniqKeys mapKeys at hu
        simp only [List.map_cons, List.nodup_cons] at hu
        exact hu.2
      show Gz ((rest.foldl (upsStep cur) (upsStep cur (z, c) (en, et))).1) n = _
      have hsplit : upsStep cur (z, c) (en, et) =
          ((upsStep cur (z, c) (en, et)).1, (upsStep cur (z, c) (en, et)).2) := rfl
      rw [hsplit, ih hurest]
      have hfst : (upsStep cur (z, c) (en, et)).1 =
          if upsAction cur en et then setRRSet z en "CNAME" [dotify et] else z := by
        unfold upsStep upsAction
        rcases hq : alookup cur en with _ | p
        · simp [createRecord_cname]
        · rcases p with ⟨v, id⟩
          by_cases hv : v = stripDot et
          · simp [hv]
          · simp [hv, updateRecord_cname]
      have hlk : alookup ((en, et) :: rest) n =
          (if n = en then some et else alookup rest n) := rfl
      rw [hlk]
      by_cases hn : n = en
      · subst hn
        rw [if_pos rfl, alookup_none_of_not_mem_keys hkey]
        show Gz (upsStep cur (z, c) (n, et)).1 n =
          if upsAction cur n et = true then upsCand n (dotify et) else Gz z n
        rw [hfst]
        by_cases ha : upsAction cur n et = true
        · rw [if_pos ha, if_pos ha, Gz_setRRSet, if_pos rfl]
        · rw [bool_eq_false ha]
          simp only [Bool.false_eq_true, if_false]
      · rw [if_neg hn]
        have hgz : Gz (upsStep cur (z, c) (en, et)).1 n = Gz z n := by
          rw [hfst]
          by_cases ha : upsAction cur en et = true
          · rw [if_pos ha, Gz_setRRSet, if_neg hn]
          · rw [bool_eq_false ha]
            simp only [Bool.false_eq_true, if_false]
        rcases hq : alookup rest n with _ | t
        · exact hgz
        · rw [hgz]

theorem upsPhase_skip (cur : List (String × String × String))
    (entries : List (String × String))
    (H : ∀ e ∈ entries, upsAction cur e.1 e.2 = false) :
    ∀ z c, entries.foldl (upsStep cur) (z, c) = (z, c) := by
  induction entries with
  | nil => intro z c; rfl
  | cons e rest ih =>
      intro z c
      have He := H e (List.mem_cons_self e rest)
      have Hrest : ∀ e' ∈ rest, _ := fun e' h' => H e' (List.mem_cons_of_mem e h')
      show rest.foldl (upsStep cur) (upsStep cur (z, c) e) = (z, c)
      have hstep : upsStep cur (z, c) e = (z, c) := by
        unfold upsStep
        unfold upsAction at He
        rcases hq : alookup cur e.1 with _ | p
        · rw [hq] at He; simp at He
        · rcases p with ⟨v, id⟩
          rw [hq] at He
          simp only at He
          have hv : v = stripDot e.2 := by
            by_cases hvv : v = stripDot e.2
            · exact hvv
            · rw [show (v != stripDot e.2) = true from by simp [hvv]] at He
              cases He
          simp [hq, hv]
      rw [hstep, ih Hrest]

/-! ## Facts about the built maps -/

theorem mem_expandRRSet {rs : RRSet} {r : ZRecord} (h : r ∈ expandRRSet rs) :
    r.name = rs.name ∧ r.rtype = rs.rtype ∧ r.id = rs.name ++ ":" ++ rs.rtype := by
  unfold expandRRSet at h
  rcases List.mem_map.mp h with ⟨v, _, hv⟩
  rw [← hv]
  exact ⟨rfl, rfl, rfl⟩

theorem mem_listRecords {z : List RRSet} {r : ZRecord} (h : r ∈ listRecords z) :
    ∃ rs ∈ z, r.name = rs.name ∧ r.rtype = rs.rtype ∧
      r.id = rs.name ++ ":" ++ rs.rtype := by
  induction z with
  | nil => simp [listRecords] at h
  | cons rs rest ih =>
      have h' : r ∈ expandRRSet rs ++ listRecords rest := h
      rcases List.mem_append.mp h' with h1 | h1
      · exact ⟨rs, List.mem_cons_self rs rest, mem_expandRRSet h1⟩
      · rcases ih h1 with ⟨rs', hm, hp⟩
        exact ⟨rs', List.mem_cons_of_mem rs hm, hp⟩

theorem cnameEntry?_props {r : ZRecord} {x : String × String × String}
    (h : cnameEntry? r = some x) :
    x.1 = r.name ∧ x.2.1 = stripDot r.value ∧ x.2.2 = r.id ∧ r.rtype = "CNAME" ∧
      managedVal (stripDot r.value) = true := by
  unfold cnameEntry? at h
  by_cases ht : (r.rtype == "CNAME") = true
  · rw [if_pos ht] at h
    by_cases hm : managedVal (stripDot r.value) = true
    · rw [if_pos hm] at h
      have hx := (Option.some.injEq _ _).mp h
      rw [← hx]
      exact ⟨rfl, rfl, rfl, by simpa using ht, hm⟩
    · rw [if_neg hm] at h
      cases h
  · rw [if_neg ht] at h
    cases h

theorem mem_ccFold (records : List ZRecord) :
    ∀ init x, x ∈ records.foldl ccStep init →
      x ∈ init ∨ ∃ r ∈ records, cnameEntry? r = some x := by
  induction records with
  | nil => intro init x hx; exact Or.inl hx
  | cons r rest ih =>
      intro init x hx
      rcases ih (ccStep init r) x hx with h | ⟨r', hr', hc⟩
      · unfold ccStep at h
        rcases hq : cnameEntry? r with _ | e
        · rw [hq] at h
          exact Or.inl h
        · rw [hq] at h
          rcases mem_mapSet h with h1 | h1
          · right
            refine ⟨r, List.mem_cons_self r rest, ?_⟩
            rw [hq, h1]
          · exact Or.inl h1
      · exact Or.inr ⟨r', List.mem_cons_of_mem r hr', hc⟩

theorem mem_currentCnamesOf {records : List ZRecord} {x : String × String × String}
    (h : x ∈ currentCnamesOf records) : ∃ r ∈ records, cnameEntry? r = some x := by
  rcases mem_ccFold records [] x h with h1 | h1
  · simp at h1
  · exact h1

theorem uniq_ccFold (records : List ZRecord) :
    ∀ init, UniqKeys init → UniqKeys (records.foldl ccStep init) := by
  induction records with
  | nil => intro init h; exact h
  | cons r rest ih =>
      intro init h
      apply ih
      unfold ccStep
      rcases hq : cnameEntry? r with _ | e
      · exact h
      · exact uniqKeys_mapSet e.1 e.2 h

theorem uniq_currentCnamesOf (records : List ZRecord) :
    UniqKeys (currentCnamesOf records) :=
  uniq_ccFold records [] (by simp [UniqKeys, mapKeys])

theorem mem_ecFold (cfg : SyncConfig) (pairs : List Pair) :
    ∀ init x, x ∈ pairs.foldl (ecStep cfg) init →
      x ∈ init ∨ ∃ p ∈ pairs, x.2 = p.cname_full := by
  induction pairs with
  | nil => intro init x hx; exact Or.inl hx
  | cons p rest ih =>
      intro init x hx
      rcases ih (ecStep cfg init p) x hx with h | ⟨p', hp', hc⟩
      · unfold ecStep at h
        by_cases h1 : cfg.ignoreSubdomains.contains p.subdomain = true
        · rw [if_pos h1] at h
          exact Or.inl h
        · rw [if_neg h1] at h
          by_cases h2 : (p.is_root &&
              (cfg.ignoreSubdomains.contains "@" || cfg.ignoreSubdomains.contains "" ||
               cfg.ignoreSubdomains.contains cfg.domain)) = true
          · rw [if_pos h2] at h
            exact Or.inl h
          · rw [if_neg h2] at h
            rcases mem_mapSet h with h3 | h3
            · right
              refine ⟨p, List.mem_cons_self p rest, ?_⟩
              rw [h3]
            · exact Or.inl h3
      · exact Or.inr ⟨p', List.mem_cons_of_mem p hp', hc⟩

theorem mem_expectedCnamesOf {cfg : SyncConfig} {pairs : List Pair}
    {x : String × String} (h : x ∈ expectedCnamesOf cfg pairs) :
    ∃ p ∈ pairs, x.2 = p.cname_full := by
  rcases mem_ecFold cfg pairs [] x h with h1 | h1
  · simp at h1
  · exact h1

theorem uniq_ecFold (cfg : SyncConfig) (pairs : List Pair) :
    ∀ init, UniqKeys init → UniqKeys (pairs.foldl (ecStep cfg) init) := by
  induction pairs with
  | nil => intro init h; exact h
  | cons p rest ih =>
      intro init h
      apply ih
      unfold ecStep
      by_cases h1 : cfg.ignoreSubdomains.contains p.subdomain = true
      · rw [if_pos h1]; exact h
      · rw [if_neg h1]
        by_cases h2 : (p.is_root &&
            (cfg.ignoreSubdomains.contains "@" || cfg.ignoreSubdomains.contains "" ||
             cfg.ignoreSubdomains.contains cfg.domain)) = true
        · rw [if_pos h2]; exact h
        · rw [if_neg h2]
          exact uniqKeys_mapSet _ _ h

theorem uniq_expectedCnamesOf (cfg : SyncConfig) (pairs : List Pair) :
    UniqKeys (expectedCnamesOf cfg pairs) :=
  uniq_ecFold cfg pairs [] (by simp [UniqKeys, mapKeys])

/-! ## Managed prefixes survive trailing-dot stripping -/

theorem listStarts_dropLast {p : List Char} :
    ∀ {l : List Char}, listStarts p l = true → p.length < l.length →
      listStarts p l.dropLast = true := by
  induction p with
  | nil => intro l _ _; rfl
  | cons a p' ih =>
      intro l h hl
      rcases l with _ | ⟨b, l'⟩
      · simp at hl
      · rcases l' with _ | ⟨c, l''⟩
        · simp at hl
        · unfold listStarts at h
          simp only [Bool.and_eq_true] at h
          have hlen : p'.length < (c :: l'').length := by
            simp at hl ⊢
            omega
          have : (b :: c :: l'').dropLast = b :: (c :: l'').dropLast := rfl
          rw [this]
          show (decide (a = b) && listStarts p' (c :: l'').dropLast) = true
          rw [h.1]
          simp [ih h.2 hlen]

theorem string_length_data (s : String) : s.length = s.data.length := rfl

theorem managed_stripDot {s : String} (h1 : strStarts s "on." = true)
    (h2 : 4 ≤ s.length) : managedVal (stripDot s) = true := by
  have hs : strStarts (stripDot s) "on." = true := by
    unfold stripDot
    by_cases hd : endsWithChar s '.' = true
    · rw [if_pos hd]
      unfold strStarts at h1 ⊢
      show listStarts "on.".data s.data.dropLast = true
      apply listStarts_dropLast h1
      have h3 : "on.".data.length = 3 := by decide
      rw [h3, ← string_length_data]
      omega
    · rw [if_neg hd]
      exact h1
  unfold managedVal
  rw [hs]
  rfl

theorem stripDot_dotify (t : String) : stripDot (dotify t) = stripDot t := by
  unfold dotify
  by_cases h : endsWithChar t '.' = true
  · rw [if_pos h]
  · rw [if_neg h]
    unfold stripDot
    have he : endsWithChar (t ++ ".") '.' = true := by
      unfold endsWithChar
      have hdata : (t ++ ".").data = t.data ++ ['.'] := by
        rw [String.data_append]
      rw [hdata, List.getLast?_concat]
      rfl
    rw [if_pos he, if_neg h]
    have hdata : (t ++ ".").data = t.data ++ ['.'] := by
      rw [String.data_append]
    rw [hdata, List.dropLast_concat]

/-! ## Convergence characterisation of one reconciliation -/

theorem sync_zone_eq (cfg : SyncConfig) (pairs : List Pair) (z : List RRSet) :
    (syncHetznerDns cfg true pairs z).zone =
      (upsPhase (currentCnamesOf (listRecords z))
        (delPhase (expectedCnamesOf cfg pairs) cfg.keepSubdomains z
          (currentCnamesOf (listRecords z))).1
        (expectedCnamesOf cfg pairs)).1 := rfl

theorem sync_calls_eq (cfg : SyncConfig) (pairs : List Pair) (z : List RRSet) :
    (syncHetznerDns cfg true pairs z).calls =
      (delPhase (expectedCnamesOf cfg pairs) cfg.keepSubdomains z
        (currentCnamesOf (listRecords z))).2 ++
      (upsPhase (currentCnamesOf (listRecords z))
        (delPhase (expectedCnamesOf cfg pairs) cfg.keepSubdomains z
          (currentCnamesOf (listRecords z))).1
        (expectedCnamesOf cfg pairs)).2 := rfl

theorem upsPhase_gz' (cur : List (String × String × String))
    (entries : List (String × String)) (hu : UniqKeys entries)
    (z : List RRSet) (n : String) :
    Gz ((upsPhase cur z entries).1) n =
      match alookup entries n with
      | some t => if upsAction cur n t then upsCand n (dotify t) else Gz z n
      | none => Gz z n :=
  upsPhase_gz cur entries hu z [] n

theorem delPhase_gz' (E : List (String × String)) (keep : List String)
    (entries : List (String × String × String))
    (Hids : ∀ e ∈ entries, e.2.2 = e.1 ++ ":" ++ "CNAME" ∧ ':' ∉ e.1.data)
    (z : List RRSet) (n : String) :
    Gz ((delPhase E keep z entries).1) n =
      if dCond entries E keep n then none else Gz z n :=
  delPhase_gz E keep entries Hids z [] n

/-- The id-shape and name hypotheses hold for every currentCnames entry
of a zone whose record-set names are colon-free. -/
theorem currentCnames_ids {z : List RRSet} (Hz : ∀ rs ∈ z, ':' ∉ rs.name.data) :
    ∀ e ∈ currentCnamesOf (listRecords z),
      e.2.2 = e.1 ++ ":" ++ "CNAME" ∧ ':' ∉ e.1.data := by
  intro e he
  rcases mem_currentCnamesOf he with ⟨r, hr, hce⟩
  have props := cnameEntry?_props hce
  rcases mem_listRecords hr with ⟨rs, hrs, hname, htype, hid⟩
  constructor
  · rw [props.2.2.1, hid, props.1, hname, ← htype, props.2.2.2.1]
  · rw [props.1, hname]
    exact Hz rs hrs

/-- Managed-prefix hypothesis on desired pairs, established later for all
pairs getPangolinDomainCnamePairs produces. -/
def PairsManaged (pairs : List Pair) : Prop :=
  ∀ p ∈ pairs, strStarts p.cname_full "on." = true ∧ 4 ≤ p.cname_full.length

theorem sync_gz (cfg : SyncConfig) (pairs : List Pair) (z : List RRSet)
    (Hz : ∀ rs ∈ z, ':' ∉ rs.name.data) (Hp : PairsManaged pairs) (n : String) :
    Gz (syncHetznerDns cfg true pairs z).zone n =
      match alookup (expectedCnamesOf cfg pairs) n with
      | some t => some (stripDot t, n ++ ":" ++ "CNAME")
      | none =>
          if (Gz z n).isSome && cfg.keepSubdomains.contains n then Gz z n
          else none := by
  rw [sync_zone_eq,
    upsPhase_gz' (currentCnamesOf (listRecords z)) (expectedCnamesOf cfg pairs)
      (uniq_expectedCnamesOf cfg pairs),
    delPhase_gz' (expectedCnamesOf cfg pairs) cfg.keepSubdomains
      (currentCnamesOf (listRecords z)) (currentCnames_ids Hz) z n]
  rcases hq : alookup (expectedCnamesOf cfg pairs) n with _ | t
  · -- the name is not expected
    rcases hgz : Gz z n with _ | x
    · have hcur : alookup (currentCnamesOf (listRecords z)) n = none := by
        rw [alookup_currentCnamesOf]
        exact hgz
      have hany : (currentCnamesOf (listRecords z)).any (fun e => e.1 == n) = false := by
        apply bool_eq_false
        intro hany
        rcases List.any_eq_true.mp hany with ⟨e, he, hee⟩
        have hen : e.1 = n := by simpa using hee
        have hmem : (n, e.2) ∈ currentCnamesOf (listRecords z) := by
          rw [← hen]
          simpa using he
        have := mem_alookup_isSome hmem
        rw [hcur] at this
        simp at this
      have hd : dCond (currentCnamesOf (listRecords z))
          (expectedCnamesOf cfg pairs) cfg.keepSubdomains n = false := by
        unfold dCond
        rw [hany]
        simp
      rw [hd]
      simp only [Bool.false_eq_true, if_false]
      simp
    · have hcur : alookup (currentCnamesOf (listRecords z)) n = some x := by
        rw [alookup_currentCnamesOf]
        exact hgz
      have hmem : (n, x) ∈ currentCnamesOf (listRecords z) := alookup_some_mem hcur
      have hany : (currentCnamesOf (listRecords z)).any (fun e => e.1 == n) = true :=
        List.any_eq_true.mpr ⟨(n, x), hmem, by simp⟩
      by_cases hk : cfg.keepSubdomains.contains n = true
      · have hd : dCond (currentCnamesOf (listRecords z))
            (expectedCnamesOf cfg pairs) cfg.keepSubdomains n = false := by
          unfold dCond
          rw [hk]
          simp
        rw [hd]
        simp only [Bool.false_eq_true, if_false]
        rw [show ((some x).isSome && cfg.keepSubdomains.contains n) = true from by
          rw [hk]; rfl]
        simp
      · have hd : dCond (currentCnamesOf (listRecords z))
            (expectedCnamesOf cfg pairs) cfg.keepSubdomains n = true := by
          unfold dCond
          rw [hany, bool_eq_false hk, hq]
          rfl
        rw [hd]
        simp only [if_true]
        rw [show ((some x).isSome && cfg.keepSubdomains.contains n) = false from by
          rw [bool_eq_false hk]; rfl]
        simp
  · -- the name is expected with target t
    have hman : managedVal (stripDot t) = true := by
      rcases mem_expectedCnamesOf (alookup_some_mem hq) with ⟨p, hp, ht⟩
      simp only at ht
      rw [ht]
      exact managed_stripDot (Hp p hp).1 (Hp p hp).2
    have hcand : upsCand n (dotify t) = some (stripDot t, n ++ ":" ++ "CNAME") := by
      unfold upsCand
      rw [stripDot_dotify, hman]
      simp
    show (if upsAction (currentCnamesOf (listRecords z)) n t = true
          then upsCand n (dotify t)
          else if dCond (currentCnamesOf (listRecords z)) (expectedCnamesOf cfg pairs)
            cfg.keepSubdomains n = true then none else Gz z n) =
        some (stripDot t, n ++ ":" ++ "CNAME")
    by_cases ha : upsAction (currentCnamesOf (listRecords z)) n t = true
    · rw [if_pos ha, hcand]
    · rw [bool_eq_false ha]
      simp only [Bool.false_eq_true, if_false]
      have haf := bool_eq_false ha
      unfold upsAction at haf
      rcases hc : alookup (currentCnamesOf (listRecords z)) n with _ | p
      · rw [hc] at haf
        simp at haf
      · rcases p with ⟨v, id⟩
        rw [hc] at haf
        simp only [bne_eq_false_iff_eq] at haf
        have hd : dCond (currentCnamesOf (listRecords z))
            (expectedCnamesOf cfg pairs) cfg.keepSubdomains n = false := by
          unfold dCond
          rw [hq]
          simp
        rw [hd]
        simp only [Bool.false_eq_true, if_false]
        have hgz : Gz z n = some (v, id) := by
          have hcc := alookup_currentCnamesOf (listRecords z) n
          rw [hc] at hcc
          exact hcc.symm
        rw [hgz, haf, GzId hgz]

theorem sync_idem (cfg : SyncConfig) (pairs : List Pair) (z : List RRSet)
    (Hz : ∀ rs ∈ z, ':' ∉ rs.name.data) (Hp : PairsManaged pairs) :
    syncHetznerDns cfg true pairs ((syncHetznerDns cfg true pairs z).zone) =
      ⟨(syncHetznerDns cfg true pairs z).zone, [],
        (syncHetznerDns cfg true pairs z).records⟩ := by
  have hlookup2 : ∀ n,
      alookup (currentCnamesOf (listRecords ((syncHetznerDns cfg true pairs z).zone))) n =
        Gz ((syncHetznerDns cfg true pairs z).zone) n := by
    intro n
    rw [alookup_currentCnamesOf]
    rfl
  have hdelskip : ∀ e ∈ currentCnamesOf (listRecords ((syncHetznerDns cfg true pairs z).zone)),
      (alookup (expectedCnamesOf cfg pairs) e.1).isSome = true ∨
        cfg.keepSubdomains.contains e.1 = true := by
    intro e he
    rcases e with ⟨en, ev⟩
    have hsome : (alookup (currentCnamesOf
        (listRecords ((syncHetznerDns cfg true pairs z).zone))) en).isSome = true := by
      exact mem_alookup_isSome he
    rw [hlookup2, sync_gz cfg pairs z Hz Hp en] at hsome
    rcases hq : alookup (expectedCnamesOf cfg pairs) en with _ | t
    · rw [hq] at hsome
      by_cases hk : cfg.keepSubdomains.contains en = true
      · exact Or.inr hk
      · rw [bool_eq_false hk] at hsome
        simp at hsome
    · exact Or.inl rfl
  have hupsskip : ∀ e ∈ expectedCnamesOf cfg pairs,
      upsAction (currentCnamesOf (listRecords ((syncHetznerDns cfg true pairs z).zone)))
        e.1 e.2 = false := by
    intro e he
    rcases e with ⟨en, et⟩
    have hlk : alookup (expectedCnamesOf cfg pairs) en = some et :=
      alookup_of_mem_uniq (uniq_expectedCnamesOf cfg pairs) he
    have hg : Gz ((syncHetznerDns cfg true pairs z).zone) en =
        some (stripDot et, en ++ ":" ++ "CNAME") := by
      rw [sync_gz cfg pairs z Hz Hp en, hlk]
    unfold upsAction
    rw [hlookup2, hg]
    simp
  have hdel : delPhase (expectedCnamesOf cfg pairs) cfg.keepSubdomains
      ((syncHetznerDns cfg true pairs z).zone)
      (currentCnamesOf (listRecords ((syncHetznerDns cfg true pairs z).zone))) =
      ((syncHetznerDns cfg true pairs z).zone, []) :=
    delPhase_skip _ _ _ hdelskip _ []
  have hups : upsPhase
      (currentCnamesOf (listRecords ((syncHetznerDns cfg true pairs z).zone)))
      ((syncHetznerDns cfg true pairs z).zone) (expectedCnamesOf cfg pairs) =
      ((syncHetznerDns cfg true pairs z).zone, []) :=
    upsPhase_skip _ _ hupsskip _ []
  show SyncResult.mk
      (upsPhase (currentCnamesOf (listRecords ((syncHetznerDns cfg true pairs z).zone)))
        (delPhase (expectedCnamesOf cfg pairs) cfg.keepSubdomains
          ((syncHetznerDns cfg true pairs z).zone)
          (currentCnamesOf (listRecords ((syncHetznerDns cfg true pairs z).zone)))).1
        (expectedCnamesOf cfg pairs)).1
      ((delPhase (expectedCnamesOf cfg pairs) cfg.keepSubdomains
          ((syncHetznerDns cfg true pairs z).zone)
          (currentCnamesOf (listRecords ((syncHetznerDns cfg true pairs z).zone)))).2 ++
        (upsPhase (currentCnamesOf (listRecords ((syncHetznerDns cfg true pairs z).zone)))
          (delPhase (expectedCnamesOf cfg pairs) cfg.keepSubdomains
            ((syncHetznerDns cfg true pairs z).zone)
            (currentCnamesOf (listRecords ((syncHetznerDns cfg true pairs z).zone)))).1
          (expectedCnamesOf cfg pairs)).2)
      (listRecords
        (upsPhase (currentCnamesOf (listRecords ((syncHetznerDns cfg true pairs z).zone)))
          (delPhase (expectedCnamesOf cfg pairs) cfg.keepSubdomains
            ((syncHetznerDns cfg true pairs z).zone)
            (currentCnamesOf (listRecords ((syncHetznerDns cfg true pairs z).zone)))).1
          (expectedCnamesOf cfg pairs)).1) = _
  rw [hdel]
  show SyncResult.mk
      (upsPhase (currentCnamesOf (listRecords ((syncHetznerDns cfg true pairs z).zone)))
        ((syncHetznerDns cfg true pairs z).zone) (expectedCnamesOf cfg pairs)).1
      ([] ++ (upsPhase (currentCnamesOf (listRecords ((syncHetznerDns cfg true pairs z).zone)))
        ((syncHetznerDns cfg true pairs z).zone) (expectedCnamesOf cfg pairs)).2)
      (listRecords
        (upsPhase (currentCnamesOf (listRecords ((syncHetznerDns cfg true pairs z).zone)))
          ((syncHetznerDns cfg true pairs z).zone) (expectedCnamesOf cfg pairs)).1) = _
  rw [hups]
  rfl

/-! ## The full cycle environment

External inputs of one reconciliation cycle: configuration fields, the
DNS TXT attempt outcomes, the resource directory contents (modelled at
the component boundary, after the response-shape extraction verified
separately on JValue), the zone id resolution, the TCP probe oracle and
the YAML serialisation function. -/

/-- JavaScript s.endsWith(p). -/
def strEnds (s p : String) : Bool := listStarts p.data.reverse s.data.reverse

/-- An organization entry as used by getOrgId (id fields tried in
order; the empty string models a missing/falsy field). -/
structure Org where
  orgId : String
  oid : String
  org_id : String
deriving DecidableEq

/-- A resource target; '' / 0 model missing fields, which are exactly
the falsy cases the JavaScript || fallbacks test. -/
structure Target where
  enabled : Option Bool
  ip : String
  port : Int
  method : String
deriving DecidableEq

/-- A resource entry as consumed by getPangolinDomainCnamePairs. -/
structure Resource where
  resourceId : String
  rid : String
  name : String
  fullDomain : String
  domain : String
  subdomain : String
  protocol : String
  targets : List Target
deriving DecidableEq

/-- One Gatus endpoint ('' models an unset group/interval; client
carries the defaults client map plus the insecure flag). -/
structure Endpoint where
  name : String
  url : String
  group : String
  conditions : List String
  interval : String
  client : Option (List (String × String) × Bool)
  alerts : Option (List String)
deriving DecidableEq

/-- The generated Gatus configuration. -/
structure GatusConfig where
  endpoints : List Endpoint
deriving DecidableEq

/-- The external world and configuration one cycle runs against. -/
structure Env where
  domain : String
  ignoreSubdomains : List String
  keepSubdomains : List String
  pangolinOrgId : String
  txtAttempts : Nat → Except String String
  orgs : List Org
  resourcesFor : String → List Resource
  targetsFor : String → List Target
  zoneId : Option String
  probeOpen : String → Int → Bool
  nameOverrides : String → String
  portOverrides : String → Option Int
  gatusInterval : String
  gatusClient : Option (List (String × String))
  gatusAlerts : Option (List String)
  allowedHttpCodes : List Int
  subdomainHttpCodes : List (Int × List String)
  skipTechnicalCnames : Bool
  aggressiveHostFiltering : Bool
  serialize : GatusConfig → String

/-- PangolinAPI.getOrgId: the configured id verbatim when truthy, else
the first listed organization's orgId / id / org_id in order. -/
def getOrgId (env : Env) : Option String :=
  if env.pangolinOrgId ≠ "" then some env.pangolinOrgId
  else
    match env.orgs with
    | [] => none
    | o :: _ =>
        let cand := if o.orgId ≠ "" then o.orgId else if o.oid ≠ "" then o.oid else o.org_id
        if cand ≠ "" then some cand else none

/-- Protocol precedence of getPangolinDomainCnamePairs: explicit target
method if http/https, else resource protocol if http/https, else the
port heuristic (443 or 8006 give https, 80 gives http, otherwise tcp). -/
def resolveProtocol (r : Resource) (t : Target) (port : Int) : String :=
  let m := strLower t.method
  if m = "http" ∨ m = "https" then m
  else
    let rp := strLower r.protocol
    if rp = "http" ∨ rp = "https" then rp
    else if port = 443 ∨ port = 8006 then "https"
    else if port = 80 then "http"
    else "tcp"

/-- The per-resource body of the getPangolinDomainCnamePairs loop; none
models a continue (no domain, no targets, no IP, no subnet match). -/
def buildPair (env : Env) (hostMapping : List (String × String)) (r : Resource) :
    Option Pair :=
  let resourceId := if r.resourceId ≠ "" then r.resourceId else r.rid
  let resourceName := if r.name ≠ "" then r.name else "Unknown"
  let domain0 :=
    if r.fullDomain ≠ "" then r.fullDomain
    else if r.domain ≠ "" then r.domain
    else r.subdomain
  if domain0 = "" then none
  else
    let domain := if strEnds domain0 env.domain then domain0
      else domain0 ++ "." ++ env.domain
    let apiTargets := env.targetsFor resourceId
    let targets := if apiTargets.isEmpty then r.targets else apiTargets
    match targets with
    | [] => none
    | t0 :: _ =>
        let target :=
          match targets.find? (fun t => t.enabled != some false) with
          | some t => t
          | none => t0
        let targetIp := target.ip
        let targetPort := if target.port ≠ 0 then target.port else 443
        let targetProtocol := resolveProtocol r target targetPort
        if targetIp = "" then none
        else
          match getCnameForIp targetIp hostMapping with
          | none => none
          | some cname =>
              let subdomain := strReplaceFirst domain ("." ++ env.domain) ""
              let isRoot := subdomain == env.domain || subdomain == ""
              some ⟨resourceName, domain, subdomain, cname,
                cname ++ "." ++ env.domain, isRoot, resourceName, targetIp,
                targetPort, targetProtocol⟩

/-- DNSSync.getPangolinDomainCnamePairs: resolve the topology mapping,
the organization and its resources, then build one desired pair per
usable resource. -/
def getPangolinDomainCnamePairs (env : Env) :
    List Pair × List (String × String) :=
  let hostMapping := getHostSubnetMapping env.txtAttempts
  if hostMapping.isEmpty then ([], [])
  else
    match getOrgId env with
    | none => ([], hostMapping)
    | some orgId =>
        let resources := env.resourcesFor orgId
        if resources.isEmpty then ([], hostMapping)
        else (resources.filterMap (buildPair env hostMapping), hostMapping)

/-! ## GatusConfigGenerator state and generation (part_002 lines 257-670) -/

/-- JavaScript Set.add on an insertion-ordered duplicate-free list. -/
def setAdd (l : List String) (x : String) : List String :=
  if l.contains x then l else l ++ [x]

/-- GatusConfigGenerator.updateHostMapping: derives the subnet-to-host
grouping object and the hostname set (cname.replace('on.', '') strips
the first occurrence, which for mapping keys is the leading prefix). -/
def updateHostMapping (hm : List (String × String)) :
    List (String × String) × List String :=
  hm.foldl
    (fun acc p =>
      let hostname := strReplaceFirst p.1 "on." ""
      (mapSet acc.1 p.2 hostname, setAdd acc.2 hostname)) ([], [])

/-- GatusConfigGenerator.shouldSkipEndpoint. -/
def shouldSkipEndpoint (env : Env) (hostnames : List String) (name : String) : Bool :=
  env.ignoreSubdomains.any
    (fun ignored => ignored == name || (ignored != "" && strHasSub name ignored)) ||
  (env.skipTechnicalCnames &&
    hostnames.any (fun h => strHasSub name ("on." ++ h) || strHasSub name ("via." ++ h))) ||
  (env.aggressiveHostFiltering && hostnames.any (fun h => strHasSub name h))

/-- GatusConfigGenerator.getGroupForTarget: subnet containment first,
then hostname substring of the domain, else "other". -/
def getGroupForTarget (subnetToHostname : List (String × String))
    (hostnames : List String) (targetIp domain : String) : String :=
  match subnetToHostname.find? (fun p => ipInSubnet targetIp p.1) with
  | some p => p.2
  | none =>
      match hostnames.find? (fun h => strHasSub (strLower domain) (strLower h)) with
      | some h => h
      | none => "other"

/-- Duplicate removal keeping first occurrences (the Set part of the
allowed-code normalisation). -/
def dedupInts (l : List Int) : List Int :=
  l.foldl (fun acc x => if acc.contains x then acc else acc ++ [x]) []

/-- Ascending insertion used to model sort((a, b) => a - b). -/
def insertAsc (x : Int) : List Int → List Int
  | [] => [x]
  | y :: ys => if x ≤ y then x :: y :: ys else y :: insertAsc x ys

/-- Ascending sort of the allowed-code list. -/
def sortAsc (l : List Int) : List Int := l.foldr insertAsc []

/-- GatusConfigGenerator.getAllowedCodesForSubdomain: extend the base
allow-list with per-pattern codes whose pattern matches the subdomain or
name, then de-duplicate and sort ascending. -/
def getAllowedCodes (env : Env) (subdomain name : String) : List Int :=
  let folded := env.subdomainHttpCodes.foldl
    (fun acc cs =>
      if acc.contains cs.1 then acc
      else if cs.2.any (fun pattern =>
          let pl := strLower pattern
          strHasSub (strLower subdomain) pl || strHasSub (strLower name) pl ||
          strLower subdomain == pl || strLower name == pl) then acc ++ [cs.1]
      else acc) env.allowedHttpCodes
  sortAsc (dedupInts folded)

/-- codes.join(', '). -/
def joinCodes : List Int → String
  | [] => ""
  | x :: xs => xs.foldl (fun acc y => acc ++ ", " ++ toString y) (toString x)

/-- Parameters of GatusConfigGenerator.generateEndpoint. -/
structure EpParams where
  name : String
  host : String
  port : Int
  protocol : String
  group : String
  conditions : Option (List String)
  useInsecureTls : Bool
  subdomain : String

/-- GatusConfigGenerator.generateEndpoint. -/
def generateEndpoint (env : Env) (p : EpParams) : Endpoint :=
  let url :=
    if p.protocol = "icmp" then "icmp://" ++ p.host
    else if p.protocol = "http" ∨ p.protocol = "https" then
      p.protocol ++ "://" ++ p.host ++ ":" ++ toString p.port
    else if p.protocol = "dns" then "dns://" ++ p.host
    else p.protocol ++ "://" ++ p.host ++ ":" ++ toString p.port
  let conditions :=
    match p.conditions with
    | some c => c
    | none =>
        if p.protocol = "http" ∨ p.protocol = "https" then
          let allowedCodes :=
            getAllowedCodes env (if p.subdomain ≠ "" then p.subdomain else p.name) p.name
          if allowedCodes.length = 1 then
            ["[STATUS] == " ++ toString (allowedCodes.headD 0)]
          else ["[STATUS] == any(" ++ joinCodes allowedCodes ++ ")"]
        else ["[CONNECTED] == true"]
  { name := p.name, url := url, group := p.group, conditions := conditions,
    interval := env.gatusInterval,
    client :=
      if env.gatusClient.isSome || p.useInsecureTls then
        some (env.gatusClient.getD [], p.useInsecureTls)
      else none,
    alerts := env.gatusAlerts }

/-- An entry of the pangolinEntries list fed to generateConfig. -/
structure PEntry where
  name : String
  domain : String
  target : String
  port : Int
  protocol : String
deriving DecidableEq

/-- An entry of the hetznerEntries list fed to generateConfig. -/
structure HEntry where
  name : String
  htype : String
  value : String
deriving DecidableEq

/-- The Pangolin half of generateConfig: claims its subdomain and full
domain, then emits one endpoint unless filtered. -/
def genPangolin (env : Env) (subnetToHostname : List (String × String))
    (hostnames : List String) (entries : List PEntry) :
    List String × List Endpoint :=
  entries.foldl
    (fun acc e =>
      let name := if e.name ≠ "" then e.name else if e.domain ≠ "" then e.domain else "Unknown"
      let domain := e.domain
      let targetIp := e.target
      let port := if e.port ≠ 0 then e.port else 443
      let protocol := if e.protocol ≠ "" then e.protocol else "https"
      let subdomain := strReplaceFirst domain ("." ++ env.domain) ""
      let claimed := setAdd (setAdd acc.1 subdomain) domain
      if shouldSkipEndpoint env hostnames name || shouldSkipEndpoint env hostnames domain then
        (claimed, acc.2)
      else if targetIp = "" then (claimed, acc.2)
      else
        let group := getGroupForTarget subnetToHostname hostnames targetIp domain
        let ep := generateEndpoint env
          ⟨name, targetIp, port, protocol, group, none, protocol == "https", subdomain⟩
        (claimed, acc.2 ++ [ep])) ([], [])

/-- The Hetzner half of generateConfig: leftover zone records become
endpoints with live protocol detection against the record's effective
target. -/
def genHetzner (env : Env) (_subnetToHostname : List (String × String))
    (hostnames : List String) (claimed : List String)
    (entries : List HEntry) : List Endpoint :=
  entries.foldl
    (fun acc e =>
      let recordName := e.name
      let recordType := e.htype
      let target := e.value
      let isKept := env.keepSubdomains.contains recordName
      if !isKept && (strStarts recordName "on." || strStarts target "on.") then acc
      else if claimed.contains recordName && !isKept then acc
      else
        let fullDomain := if recordName = "@" then env.domain
          else recordName ++ "." ++ env.domain
        if claimed.contains fullDomain then acc
        else if recordType ≠ "A" ∧ recordType ≠ "CNAME" then acc
        else if shouldSkipEndpoint env hostnames recordName ||
            shouldSkipEndpoint env hostnames fullDomain then acc
        else
          let subdomain := if recordName ≠ "@" then recordName else ""
          let displayName := if env.nameOverrides subdomain ≠ "" then
              env.nameOverrides subdomain else fullDomain
          let detectTarget := if recordType = "CNAME" then stripDot target else fullDomain
          let pp := detectProtocolAndPort env.portOverrides
            (fun port => env.probeOpen detectTarget port) recordName
          let targetVal := stripDot target
          let group :=
            match hostnames.find? (fun h => strHasSub targetVal ("on." ++ h)) with
            | some h => h
            | none =>
                match hostnames.find? (fun h =>
                    strHasSub (strLower fullDomain) (strLower h)) with
                | some h => h
                | none => "other"
          acc ++ [generateEndpoint env
            ⟨displayName, fullDomain, pp.2, pp.1, group, none, false, recordName⟩]) []

/-- GatusConfigGenerator.generateConfig. -/
def generateConfig (env : Env) (subnetToHostname : List (String × String))
    (hostnames : List String) (pangolinEntries : List PEntry)
    (hetznerEntries : List HEntry) : GatusConfig :=
  let pg := genPangolin env subnetToHostname hostnames pangolinEntries
  ⟨pg.2 ++ genHetzner env subnetToHostname hostnames pg.1 hetznerEntries⟩

/-- DNSSync.generateGatusConfig: prepares the two entry lists from the
desired pairs and the refreshed zone records, then generates. -/
def generateGatusConfig (env : Env) (subnetToHostname : List (String × String))
    (hostnames : List String) (pairs : List Pair) (records : List ZRecord) :
    GatusConfig :=
  let pangolinEntries := pairs.map
    (fun p => PEntry.mk p.resource_name p.domain p.target p.port p.protocol)
  let pangolinSubdomains := pairs.map (fun p => p.subdomain)
  let hetznerEntries := records.foldl
    (fun acc r =>
      if r.rtype ≠ "A" ∧ r.rtype ≠ "CNAME" then acc
      else if pangolinSubdomains.contains r.name then acc
      else if strStarts r.name "on." && !(env.keepSubdomains.contains r.name) then acc
      else acc ++ [HEntry.mk r.name r.rtype (stripDot r.value)]) []
  generateConfig env subnetToHostname hostnames pangolinEntries hetznerEntries

/-! ## DNSSync.writeGatusConfig and the orchestrator (part_003 346-445) -/

/-- The monitoring output file, plus the zone, is the only cross-cycle
state. -/
structure World where
  zone : List RRSet
  file : Option String

/-- DNSSync.writeGatusConfig: serialize, compare against the existing
file (missing file counts as different), write on change.  Returns
whether a write occurred and the resulting file content; the temp-file
and atomic-rename mechanics have no observable effect in this model. -/
def writeGatusConfig (serialize : GatusConfig → String) (cfg : GatusConfig)
    (file : Option String) : Bool × Option String :=
  let newContent := serialize cfg
  match file with
  | some existing =>
      if existing == newContent then (false, file) else (true, some newContent)
  | none => (true, some newContent)

/-- The cycle summary. -/
structure Summary where
  pangolinMappings : Nat
  dnsRecords : Nat
  gatusEndpoints : Nat
  errors : List String
deriving DecidableEq

/-- The cycle result. -/
structure RunResult where
  success : Bool
  summary : Summary
deriving DecidableEq

/-- DNSSync.runOnce as a generic orchestrator over its four effectful
steps (pair building, zone sync, config generation, config write) and
the pure generator-state update between steps 1 and 2.  Each step may
throw (Except); the surrounding try/catch of the source catches the
first error, pushes its message onto the summary built so far, and
returns success: false. -/
def runOnceGen {σ : Type}
    (step1 : σ → Except String ((List Pair × List (String × String)) × σ))
    (updateHM : List (String × String) → σ → σ)
    (step2 : List Pair → σ → Except String (List ZRecord × σ))
    (step3 : List Pair → List ZRecord → σ → Except String (GatusConfig × σ))
    (writeStep : GatusConfig → σ → Except String (Bool × σ))
    (s : σ) : RunResult × σ :=
  let summary0 : Summary := ⟨0, 0, 0, []⟩
  match step1 s with
  | .error e => (⟨false, { summary0 with errors := summary0.errors ++ [e] }⟩, s)
  | .ok (ph, s1) =>
      let sum1 := { summary0 with pangolinMappings := ph.1.length }
      let s1' := updateHM ph.2 s1
      match step2 ph.1 s1' with
      | .error e => (⟨false, { sum1 with errors := sum1.errors ++ [e] }⟩, s1')
      | .ok (records, s2) =>
          let sum2 := { sum1 with dnsRecords := records.length }
          match step3 ph.1 records s2 with
          | .error e => (⟨false, { sum2 with errors := sum2.errors ++ [e] }⟩, s2)
          | .ok (cfg, s3) =>
              let sum3 := { sum2 with gatusEndpoints := cfg.endpoints.length }
              match writeStep cfg s3 with
              | .error e => (⟨false, { sum3 with errors := sum3.errors ++ [e] }⟩, s3)
              | .ok (_, s4) => (⟨true, sum3⟩, s4)

/-- The first error thrown along the executed path of a cycle, if any. -/
def runOnceFirstError {σ : Type}
    (step1 : σ → Except String ((List Pair × List (String × String)) × σ))
    (updateHM : List (String × String) → σ → σ)
    (step2 : List Pair → σ → Except String (List ZRecord × σ))
    (step3 : List Pair → List ZRecord → σ → Except String (GatusConfig × σ))
    (writeStep : GatusConfig → σ → Except String (Bool × σ))
    (s : σ) : Option String :=
  match step1 s with
  | .error e => some e
  | .ok (ph, s1) =>
      let s1' := updateHM ph.2 s1
      match step2 ph.1 s1' with
      | .error e => some e
      | .ok (records, s2) =>
          match step3 ph.1 records s2 with
          | .error e => some e
          | .ok (cfg, s3) =>
              match writeStep cfg s3 with
              | .error e => some e
              | .ok _ => none

/-- Concrete cycle state: the world plus the generator grouping state,
the zone mutation calls issued this cycle and whether the config file
was rewritten. -/
structure CState where
  world : World
  genGroups : List (String × String)
  genHostnames : List String
  calls : List ZoneCall
  written : Bool

/-- Step 1: fetch Pangolin domain-to-CNAME pairs (pure given the
environment oracles; never throws in this model). -/
def step1C (env : Env) (s : CState) :
    Except String ((List Pair × List (String × String)) × CState) :=
  .ok (getPangolinDomainCnamePairs env, s)

/-- The generator-state update between steps 1 and 2. -/
def updateHMC (hm : List (String × String)) (s : CState) : CState :=
  let g := updateHostMapping hm
  { s with genGroups := g.1, genHostnames := g.2 }

/-- Step 2: synchronize the Hetzner zone, recording the mutation calls. -/
def step2C (env : Env) (pairs : List Pair) (s : CState) :
    Except String (List ZRecord × CState) :=
  let res := syncHetznerDns ⟨env.domain, env.ignoreSubdomains, env.keepSubdomains⟩
    env.zoneId.isSome pairs s.world.zone
  .ok (res.records,
    { s with world := { s.world with zone := res.zone }, calls := s.calls ++ res.calls })

/-- Step 3: generate the Gatus configuration. -/
def step3C (env : Env) (pairs : List Pair) (records : List ZRecord) (s : CState) :
    Except String (GatusConfig × CState) :=
  .ok (generateGatusConfig env s.genGroups s.genHostnames pairs records, s)

/-- Step 4: write the configuration if changed. -/
def writeC (env : Env) (cfg : GatusConfig) (s : CState) :
    Except String (Bool × CState) :=
  let res := writeGatusConfig env.serialize cfg s.world.file
  .ok (res.1,
    { s with world := { s.world with file := res.2 }, written := res.1 })

/-- DNSSync.runOnce instantiated with the concrete pipeline steps. -/
def runOnce (env : Env) (s : CState) : RunResult × CState :=
  runOnceGen (step1C env) updateHMC (step2C env) (step3C env) (writeC env) s

/-! ## Claim C5: probe order and first-open-port selection -/

theorem probePorts_find (isOpen : Int → Bool) :
    ∀ l : List Int, probePorts isOpen l =
      (match l.find? isOpen with
       | some p => ((PORT_PROTOCOLS p).getD "tcp", p)
       | none => ("icmp", 0)) := by
  intro l
  induction l with
  | nil => rfl
  | cons p rest ih =>
      show (if isOpen p then ((PORT_PROTOCOLS p).getD "tcp", p) else probePorts isOpen rest) = _
      rw [List.find?_cons]
      by_cases hp : isOpen p = true
      · rw [if_pos hp, hp]
      · rw [if_neg hp, bool_eq_false hp, ih]

/-- Claim C5: with no port override for the subdomain,
detectProtocolAndPort probes the fixed ordered list
[8443, 8006, 8080, 21, 443, 80, 587, 465, 993, 123, 53] and returns the
protocol/port of the first port the TCP oracle reports open, falling
back to icmp/0 if none is open; in particular an open 8443 wins over
everything else. -/
theorem detect_probe_first_open_port (portOv : String → Option Int)
    (isOpen : Int → Bool) (subdomain : String) (h : portOv subdomain = none) :
    detectProtocolAndPort portOv isOpen subdomain =
      (match CHECK_ORDER.find? isOpen with
       | some p => ((PORT_PROTOCOLS p).getD "tcp", p)
       | none => ("icmp", 0)) ∧
    CHECK_ORDER = [8443, 8006, 8080, 21, 443, 80, 587, 465, 993, 123, 53] ∧
    (isOpen 8443 = true → detectProtocolAndPort portOv isOpen subdomain = ("https", 8443)) := by
  have hbase : detectProtocolAndPort portOv isOpen subdomain = probePorts isOpen CHECK_ORDER := by
    unfold detectProtocolAndPort
    by_cases hs : subdomain = ""
    · rw [if_pos hs]
    · rw [if_neg hs, h]
  refine ⟨?_, rfl, ?_⟩
  · rw [hbase, probePorts_find]
  · intro hopen
    rw [hbase]
    show (if isOpen 8443 then ((PORT_PROTOCOLS 8443).getD "tcp", (8443 : Int))
          else probePorts isOpen [8006, 8080, 21, 443, 80, 587, 465, 993, 123, 53]) = _
    rw [hopen]
    show ((PORT_PROTOCOLS 8443).getD "tcp", (8443 : Int)) = ("https", 8443)
    decide

/-- Witness for C5: with both 8443 and 443 open and no override, the
detection picks 8443 (first in probe order). -/
theorem detect_probe_first_open_port_witness :
    detectProtocolAndPort (fun _ => none) (fun p => p == 8443 || p == 443) "x" =
      (match CHECK_ORDER.find? (fun p => p == 8443 || p == 443) with
       | some p => ((PORT_PROTOCOLS p).getD "tcp", p)
       | none => ("icmp", 0)) ∧
    CHECK_ORDER = [8443, 8006, 8080, 21, 443, 80, 587, 465, 993, 123, 53] ∧
    ((fun p => p == 8443 || p == 443) (8443 : Int) = true →
      detectProtocolAndPort (fun _ => none) (fun p => p == 8443 || p == 443) "x" =
        ("https", 8443)) :=
  detect_probe_first_open_port (fun _ => none) (fun p => p == 8443 || p == 443) "x" rfl

/-! ## Claim C6: override path (corrected: an empty subdomain skips the
override check in the source, `subdomain && ...`) -/

/-- Counterexample to C6 as stated: the subdomain "" has a configured
port override of 80, yet the function probes the ports (returning
icmp/0 when every probe fails) instead of returning (http, 80). -/
theorem detect_override_empty_subdomain_counterexample :
    (fun s => if s = "" then some (80 : Int) else none) "" = some 80 ∧
    detectProtocolAndPort (fun s => if s = "" then some (80 : Int) else none)
      (fun _ => false) "" = ("icmp", 0) ∧
    detectProtocolAndPort (fun s => if s = "" then some (80 : Int) else none)
      (fun _ => false) "" ≠ ("http", 80) := by
  refine ⟨rfl, rfl, by decide⟩

/-- Claim C6 (amended: for every non-empty subdomain having a configured
port override): the override's port and table protocol are returned
immediately and the result does not depend on the probe oracle. -/
theorem detect_override_returns_immediately (portOv : String → Option Int)
    (isOpen isOpen' : Int → Bool) (subdomain : String) (port : Int)
    (hs : subdomain ≠ "") (ho : portOv subdomain = some port) :
    detectProtocolAndPort portOv isOpen subdomain =
      ((PORT_PROTOCOLS port).getD "tcp", port) ∧
    detectProtocolAndPort portOv isOpen subdomain =
      detectProtocolAndPort portOv isOpen' subdomain := by
  constructor
  · unfold detectProtocolAndPort
    rw [if_neg hs, ho]
  · unfold detectProtocolAndPort
    rw [if_neg hs, ho]

/-- Witness for the amended C6: an override of 80 yields (http, 80) no
matter which ports would accept connections. -/
theorem detect_override_returns_immediately_witness :
    detectProtocolAndPort (fun s => if s = "sub" then some (80 : Int) else none)
      (fun _ => false) "sub" = ((PORT_PROTOCOLS 80).getD "tcp", 80) ∧
    detectProtocolAndPort (fun s => if s = "sub" then some (80 : Int) else none)
      (fun _ => false) "sub" =
    detectProtocolAndPort (fun s => if s = "sub" then some (80 : Int) else none)
      (fun _ => true) "sub" :=
  detect_override_returns_immediately (fun s => if s = "sub" then some (80 : Int) else none)
    (fun _ => false) (fun _ => true) "sub" 80 (by decide) rfl

/-! ## Claim C7: subnet containment -/

/-- Modelled from the claim's parenthetical: an address is malformed
when the dot-split yields a wrong part count or some octet fails to
parse or parses outside 0..255. -/
def malformedIp (ip : String) : Prop :=
  (splitOnC '.' ip).length ≠ 4 ∨
  ∃ part ∈ splitOnC '.' ip,
    match jsParseInt part with
    | none => True
    | some v => v < 0 ∨ 255 < v

theorem ipToNumberGo_bad {parts : List String} {part : String}
    (hmem : part ∈ parts)
    (hbad : match jsParseInt part with
            | none => True
            | some v => v < 0 ∨ 255 < v) :
    ∀ num, ipToNumberGo parts num = none := by
  induction parts with
  | nil => simp at hmem
  | cons p rest ih =>
      intro num
      show (match jsParseInt p with
            | none => none
            | some v => if v < 0 ∨ 255 < v then none
                else ipToNumberGo rest (num * 256 + v.toNat)) = none
      rcases List.mem_cons.mp hmem with h | h
      · subst h
        rcases hq : jsParseInt part with _ | v
        · rfl
        · rw [hq] at hbad
          simp only at hbad
          show (if v < 0 ∨ 255 < v then none
                else ipToNumberGo rest (num * 256 + v.toNat)) = none
          rw [if_pos hbad]
      · rcases hq : jsParseInt p with _ | v
        · rfl
        · show (if v < 0 ∨ 255 < v then none
                else ipToNumberGo rest (num * 256 + v.toNat)) = none
          by_cases hv : v < 0 ∨ 255 < v
          · rw [if_pos hv]
          · rw [if_neg hv]
            exact ih h _

/-- Claim C7: ipInSubnet contains 10.0.4.17 in 10.0.4.0/24, excludes
10.0.5.1, and returns false (it is total, so it never raises) on every
malformed address. -/
theorem ipInSubnet_contains_and_malformed_false (ip subnet : String)
    (h : malformedIp ip) :
    ipInSubnet ip subnet = false ∧
    ipInSubnet "10.0.4.17" "10.0.4.0/24" = true ∧
    ipInSubnet "10.0.5.1" "10.0.4.0/24" = false := by
  refine ⟨?_, by decide, by decide⟩
  have hnone : ipToNumber ip = none := by
    unfold ipToNumber
    rcases h with h | ⟨part, hmem, hbad⟩
    · rw [if_pos h]
    · by_cases hlen : (splitOnC '.' ip).length ≠ 4
      · rw [if_pos hlen]
      · rw [if_neg hlen]
        exact ipToNumberGo_bad hmem hbad 0
  unfold ipInSubnet
  rw [hnone]

/-- Witness for C7 at the malformed address "10.0.4" (three parts). -/
theorem ipInSubnet_contains_and_malformed_false_witness :
    ipInSubnet "10.0.4" "10.0.4.0/24" = false ∧
    ipInSubnet "10.0.4.17" "10.0.4.0/24" = true ∧
    ipInSubnet "10.0.5.1" "10.0.4.0/24" = false :=
  ipInSubnet_contains_and_malformed_false "10.0.4" "10.0.4.0/24"
    (Or.inl (by decide))

/-! ## Claim C8: one ordered shape-resolution policy for all three calls -/

/-- Claim C8: listOrgs, listResources and getResourceTargets extract
their results by the same ordered policy — bare array first, then the
array nested under data.key, then data itself when it is an array, then
the top-level key, else the empty list. -/
theorem shape_policy_shared (data : JValue) :
    listOrgsExtract data = specShapePolicy "orgs" data ∧
    listResourcesExtract data = specShapePolicy "resources" data ∧
    getResourceTargetsExtract data = specShapePolicy "targets" data := by
  refine ⟨?_, ?_, ?_⟩ <;> cases data <;> rfl

/-! ## Claim C9: three attempts with fixed delay, then the empty mapping -/

/-- Claim C9: when all three TXT attempts fail, the retry loop makes
exactly MAX_RETRIES = 3 attempts with a RETRY_DELAY_MS sleep between
consecutive attempts, the query throws the last error, and
getHostSubnetMapping swallows it into the empty mapping. -/
theorem queryTXT_three_attempts_then_empty
    (attempts : Nat → Except String String) (e1 e2 e3 : String)
    (h1 : attempts 1 = .error e1) (h2 : attempts 2 = .error e2)
    (h3 : attempts 3 = .error e3) :
    queryTXTTraced attempts =
      (.error e3, ⟨MAX_RETRIES, [RETRY_DELAY_MS, RETRY_DELAY_MS]⟩) ∧
    getHostSubnetMapping attempts = [] := by
  have htr : queryTXTTraced attempts =
      (.error e3, ⟨MAX_RETRIES, [RETRY_DELAY_MS, RETRY_DELAY_MS]⟩) := by
    show queryTXTGo attempts 1 (MAX_RETRIES - 1) = _
    show queryTXTGo attempts 1 2 = _
    show (match attempts 1 with
          | .ok v => ((.ok v : Except String String), (⟨1, []⟩ : RetryTrace))
          | .error _ =>
              let rest := queryTXTGo attempts 2 1
              (rest.1, ⟨rest.2.attemptsMade + 1, RETRY_DELAY_MS :: rest.2.sleeps⟩)) = _
    rw [h1]
    show (let rest := queryTXTGo attempts 2 1
          ((rest.1 : Except String String),
            (⟨rest.2.attemptsMade + 1, RETRY_DELAY_MS :: rest.2.sleeps⟩ : RetryTrace))) = _
    have hgo2 : queryTXTGo attempts 2 1 =
        ((.error e3 : Except String String), (⟨2, [RETRY_DELAY_MS]⟩ : RetryTrace)) := by
      show (match attempts 2 with
            | .ok v => ((.ok v : Except String String), (⟨1, []⟩ : RetryTrace))
            | .error _ =>
                let rest := queryTXTGo attempts 3 0
                (rest.1, ⟨rest.2.attemptsMade + 1, RETRY_DELAY_MS :: rest.2.sleeps⟩)) = _
      rw [h2]
      show ((queryTXTGo attempts 3 0).1,
        (⟨(queryTXTGo attempts 3 0).2.attemptsMade + 1,
          RETRY_DELAY_MS :: (queryTXTGo attempts 3 0).2.sleeps⟩ : RetryTrace)) = _
      have h30 : queryTXTGo attempts 3 0 = (attempts 3, ⟨1, []⟩) := rfl
      rw [h30, h3]
    show ((queryTXTGo attempts 2 1).1,
      (⟨(queryTXTGo attempts 2 1).2.attemptsMade + 1,
        RETRY_DELAY_MS :: (queryTXTGo attempts 2 1).2.sleeps⟩ : RetryTrace)) = _
    rw [hgo2]
    rfl
  refine ⟨htr, ?_⟩
  unfold getHostSubnetMapping queryTXT
  rw [htr]

/-- Witness for C9: three concrete failing attempts. -/
theorem queryTXT_three_attempts_then_empty_witness :
    queryTXTTraced (fun i => .error ("fail" ++ toString i)) =
      (.error ("fail" ++ toString 3), ⟨MAX_RETRIES, [RETRY_DELAY_MS, RETRY_DELAY_MS]⟩) ∧
    getHostSubnetMapping (fun i => .error ("fail" ++ toString i)) = [] :=
  queryTXT_three_attempts_then_empty (fun i => .error ("fail" ++ toString i))
    ("fail" ++ toString 1) ("fail" ++ toString 2) ("fail" ++ toString 3) rfl rfl rfl

/-! ## Claim C3: diff partitioning on a concrete scenario -/

/-- Claim C3: with current managed CNAMEs a -> on.x and b -> on.y and
desired pairs yielding the expected map a -> on.x, c -> on.z, the
reconciler issues exactly one delete (b), no mutation for a, and one
create (c), with the delete strictly before the create. -/
theorem reconcile_diff_partition_example :
    (syncHetznerDns ⟨"example.com", [], []⟩ true
      [⟨"ra", "a.example.com", "a", "on.x", "on.x", false, "ra", "10.0.4.1", 443, "https"⟩,
       ⟨"rc", "c.example.com", "c", "on.z", "on.z", false, "rc", "10.0.4.2", 443, "https"⟩]
      [⟨"a", "CNAME", ["on.x."]⟩, ⟨"b", "CNAME", ["on.y."]⟩]).calls =
      [ZoneCall.delete "b:CNAME", ZoneCall.create "c" "CNAME" "on.z"] := by
  decide

/-! ## Claim C4: delete calls target only orphaned managed CNAMEs -/

theorem upsPhase_calls_shape (cur : List (String × String × String))
    (entries : List (String × String)) :
    ∀ z c x, x ∈ (entries.foldl (upsStep cur) (z, c)).2 →
      x ∈ c ∨ (∃ n t, x = ZoneCall.update n "CNAME" t) ∨
        (∃ n t, x = ZoneCall.create n "CNAME" t) := by
  induction entries with
  | nil => intro z c x hx; exact Or.inl hx
  | cons e rest ih =>
      intro z c x hx
      have hx' : x ∈ (rest.foldl (upsStep cur)
          ((upsStep cur (z, c) e).1, (upsStep cur (z, c) e).2)).2 := hx
      rcases ih _ _ x hx' with h | h
      · unfold upsStep at h
        rcases hq : alookup cur e.1 with _ | p
        · rw [hq] at h
          rcases List.mem_append.mp h with h1 | h1
          · exact Or.inl h1
          · right; right
            exact ⟨e.1, e.2, by simpa using h1⟩
        · rcases p with ⟨v, id⟩
          rw [hq] at h
          have h' : x ∈ (if v ≠ stripDot e.2 then
              (updateRecord z e.1 "CNAME" e.2, c ++ [ZoneCall.update e.1 "CNAME" e.2])
            else (z, c)).2 := h
          by_cases hv : v ≠ stripDot e.2
          · rw [if_pos hv] at h'
            rcases List.mem_append.mp h' with h1 | h1
            · exact Or.inl h1
            · right; left
              exact ⟨e.1, e.2, by simpa using h1⟩
          · rw [if_neg hv] at h'
            exact Or.inl h'
      · exact Or.inr h

theorem str_append_cancel {n m t : String} (h : n ++ t = m ++ t) : n = m := by
  have hdata : n.data ++ t.data = m.data ++ t.data := by
    have := congrArg String.data h
    rwa [String.data_append, String.data_append] at this
  have hnm : n.data = m.data := by
    exact List.append_cancel_right hdata
  rcases n with ⟨nd⟩
  rcases m with ⟨md⟩
  simp only [String.data] at hnm
  rw [hnm]

/-- Claim C4: a delete call is issued only for a record id naming a zone
CNAME record whose stripped value references a topology hostname and
whose name is neither expected nor retained; consequently a retained
name is never the target of a delete call. -/
theorem delete_call_only_for_orphaned_managed (cfg : SyncConfig) (pairs : List Pair)
    (z : List RRSet) (recId : String)
    (h : ZoneCall.delete recId ∈ (syncHetznerDns cfg true pairs z).calls) :
    (∃ n, recId = n ++ ":" ++ "CNAME" ∧
      (∃ r ∈ listRecords z, r.name = n ∧ r.rtype = "CNAME" ∧
        managedVal (stripDot r.value) = true) ∧
      alookup (expectedCnamesOf cfg pairs) n = none ∧
      cfg.keepSubdomains.contains n = false) ∧
    (∀ m, cfg.keepSubdomains.contains m = true → recId ≠ m ++ ":" ++ "CNAME") := by
  rw [sync_calls_eq] at h
  rcases List.mem_append.mp h with hd | hu
  · rcases delPhase_calls_sub (expectedCnamesOf cfg pairs) cfg.keepSubdomains
        (currentCnamesOf (listRecords z)) z [] _ hd with h0 | ⟨e, he, heq, hE, hkeep⟩
    · simp at h0
    · rcases mem_currentCnamesOf he with ⟨r, hr, hce⟩
      have props := cnameEntry?_props hce
      rcases mem_listRecords hr with ⟨rs, hrs, hname, htype, hid⟩
      have hidshape : e.2.2 = e.1 ++ ":" ++ "CNAME" := by
        rw [props.2.2.1, hid, props.1, hname, ← htype, props.2.2.2.1]
      have hrecid : recId = e.1 ++ ":" ++ "CNAME" := by
        injection heq with h'
        rw [h', hidshape]
      have hEnone : alookup (expectedCnamesOf cfg pairs) e.1 = none := by
        rcases hq : alookup (expectedCnamesOf cfg pairs) e.1 with _ | t
        · rfl
        · rw [hq] at hE
          simp at hE
      refine ⟨⟨e.1, hrecid, ⟨r, hr, props.1.symm, props.2.2.2.1, props.2.2.2.2⟩,
        hEnone, hkeep⟩, ?_⟩
      intro m hm hcontra
      have : e.1 = m := by
        have h1 : e.1 ++ ":" ++ "CNAME" = m ++ ":" ++ "CNAME" := by
          rw [← hrecid, hcontra]
        have h2 : e.1 ++ ":" = m ++ ":" := str_append_cancel h1
        exact str_append_cancel h2
      rw [this] at hkeep
      rw [hm] at hkeep
      cases hkeep
  · rcases upsPhase_calls_shape (currentCnamesOf (listRecords z))
        (expectedCnamesOf cfg pairs) _ [] _ hu with h0 | ⟨n, t, he⟩ | ⟨n, t, he⟩
    · simp at h0
    · exact ZoneCall.noConfusion he
    · exact ZoneCall.noConfusion he

/-- Witness for C4 at a concrete orphan deletion. -/
theorem delete_call_only_for_orphaned_managed_witness :
    ZoneCall.delete "b:CNAME" ∈
      (syncHetznerDns ⟨"d.com", [], ["keep1"]⟩ true [] [⟨"b", "CNAME", ["on.y."]⟩]).calls ∧
    ((∃ n, "b:CNAME" = n ++ ":" ++ "CNAME" ∧
      (∃ r ∈ listRecords [(⟨"b", "CNAME", ["on.y."]⟩ : RRSet)], r.name = n ∧
        r.rtype = "CNAME" ∧ managedVal (stripDot r.value) = true) ∧
      alookup (expectedCnamesOf ⟨"d.com", [], ["keep1"]⟩ []) n = none ∧
      (["keep1"] : List String).contains n = false) ∧
    (∀ m, (["keep1"] : List String).contains m = true → "b:CNAME" ≠ m ++ ":" ++ "CNAME")) :=
  ⟨by decide,
    delete_call_only_for_orphaned_managed ⟨"d.com", [], ["keep1"]⟩ []
      [⟨"b", "CNAME", ["on.y."]⟩] "b:CNAME" (by decide)⟩

/-! ## Claim C10: managed classification is purely syntactic -/

theorem lastMEntry_isSome_of_entry {records : List ZRecord} {r : ZRecord}
    {e : String × String × String} (hr : r ∈ records) (hce : cnameEntry? r = some e) :
    (lastMEntry e.1 records).isSome = true := by
  induction records with
  | nil => simp at hr
  | cons r0 rest ih =>
      show (oElse (lastMEntry e.1 rest) (entryFor e.1 r0)).isSome = true
      rcases List.mem_cons.mp hr with h | h
      · have hef : entryFor e.1 r0 = some e.2 := by
          unfold entryFor
          rw [← h, hce]
          show (if e.1 = e.1 then some e.2 else none) = some e.2
          rw [if_pos rfl]
        rcases hq : lastMEntry e.1 rest with _ | x
        · simp [oElse, hq, hef]
        · simp [oElse, hq]
      · have hih := ih h
        rcases hq : lastMEntry e.1 rest with _ | x
        · rw [hq] at hih
          simp at hih
        · simp [oElse, hq]

/-- Claim C10: any zone CNAME whose stripped value starts with "on." or
contains ".on." is classified as managed, so when its name is neither
expected nor retained the reconciler issues its deletion — the
classification reads only the record itself, never the cycle's topology
mapping (which is not even an input of syncHetznerDns). -/
theorem managed_syntactic_deletion_eligibility (cfg : SyncConfig) (pairs : List Pair)
    (z : List RRSet) (r : ZRecord) (hr : r ∈ listRecords z)
    (ht : r.rtype = "CNAME")
    (hm : strStarts (stripDot r.value) "on." = true ∨
      strHasSub (stripDot r.value) ".on." = true)
    (he : alookup (expectedCnamesOf cfg pairs) r.name = none)
    (hk : cfg.keepSubdomains.contains r.name = false) :
    ZoneCall.delete (r.name ++ ":" ++ "CNAME") ∈
      (syncHetznerDns cfg true pairs z).calls := by
  have hmv : managedVal (stripDot r.value) = true := by
    unfold managedVal
    rcases hm with h | h
    · rw [h]
      rfl
    · rw [h]
      simp
  have hce : cnameEntry? r = some (r.name, stripDot r.value, r.id) := by
    unfold cnameEntry?
    rw [if_pos (by simp [ht] : (r.rtype == "CNAME") = true), if_pos hmv]
  have hsome := lastMEntry_isSome_of_entry hr hce
  rcases hq2 : lastMEntry r.name (listRecords z) with _ | x
  · rw [hq2] at hsome
    simp at hsome
  · have hcur : alookup (currentCnamesOf (listRecords z)) r.name = some x := by
      rw [alookup_currentCnamesOf, hq2]
    have hgz : Gz z r.name = some x := hq2
    rcases x with ⟨v, id⟩
    have hid := GzId hgz
    have hmem : (r.name, v, id) ∈ currentCnamesOf (listRecords z) :=
      alookup_some_mem hcur
    have hdel := delPhase_calls_mem (expectedCnamesOf cfg pairs) cfg.keepSubdomains
      (currentCnamesOf (listRecords z)) z [] (r.name, v, id) hmem
      (by rw [he]; rfl) hk
    rw [sync_calls_eq]
    exact List.mem_append.mpr (Or.inl (hid ▸ hdel))

/-- Witness for C10: the CNAME ghost record on.ghost is deleted even
though no topology hostname matches it. -/
theorem managed_syntactic_deletion_eligibility_witness :
    ((⟨"g:CNAME", "g", "CNAME", "on.ghost."⟩ : ZRecord) ∈
      listRecords [(⟨"g", "CNAME", ["on.ghost."]⟩ : RRSet)]) ∧
    ZoneCall.delete ("g" ++ ":" ++ "CNAME") ∈
      (syncHetznerDns ⟨"d.com", [], []⟩ true [] [⟨"g", "CNAME", ["on.ghost."]⟩]).calls :=
  ⟨by decide,
    managed_syntactic_deletion_eligibility ⟨"d.com", [], []⟩ []
      [⟨"g", "CNAME", ["on.ghost."]⟩] ⟨"g:CNAME", "g", "CNAME", "on.ghost."⟩
      (by decide) (by decide) (Or.inl (by decide)) (by decide) (by decide)⟩

/-! ## Claims C1 and C2: cycle idempotence and the error boundary -/

theorem listStarts_self_append (p l : List Char) : listStarts p (p ++ l) = true := by
  induction p with
  | nil => rfl
  | cons a ps ih =>
      show (decide (a = a) && listStarts ps (ps ++ l)) = true
      simp [ih]

theorem listStarts_append_mono {p l : List Char} (h : listStarts p l = true)
    (l' : List Char) : listStarts p (l ++ l') = true := by
  induction p generalizing l with
  | nil => rfl
  | cons a ps ih =>
      cases l with
      | nil => simp [listStarts] at h
      | cons b bs =>
          have h' : (decide (a = b) && listStarts ps bs) = true := h
          rw [Bool.and_eq_true] at h'
          rcases h' with ⟨h1, h2⟩
          show (decide (a = b) && listStarts ps (bs ++ l')) = true
          rw [h1, ih h2]
          rfl

theorem mem_ptFold (entries : List String) :
    ∀ init x, x ∈ entries.foldl ptStep init →
      x ∈ init ∨ ∃ e ∈ entries, parseTopologyEntry e = some x := by
  induction entries with
  | nil => intro init x hx; exact Or.inl hx
  | cons a rest ih =>
      intro init x hx
      rcases ih (ptStep init a) x hx with h | ⟨e', he', hc⟩
      · unfold ptStep at h
        rcases hq : parseTopologyEntry a with _ | e
        · rw [hq] at h
          exact Or.inl h
        · rw [hq] at h
          rcases mem_mapSet h with h1 | h1
          · right
            refine ⟨a, List.mem_cons_self a rest, ?_⟩
            rw [hq, h1]
          · exact Or.inl h1
      · exact Or.inr ⟨e', List.mem_cons_of_mem a he', hc⟩

theorem parseTopologyEntry_key {entry : String} {x : String × String}
    (h : parseTopologyEntry entry = some x) :
    ∃ hostname, x.1 = "on." ++ hostname := by
  simp only [parseTopologyEntry] at h
  split at h
  · exact Option.noConfusion h
  · split at h
    · rename_i subnet heq
      have hx := Option.some.inj h
      refine ⟨strTrim ((splitOnC ':' (strTrim entry)).headD ""), ?_⟩
      rw [← hx]
    · exact Option.noConfusion h

theorem mapping_key_managed {attempts : Nat → Except String String}
    {x : String × String} (hx : x ∈ getHostSubnetMapping attempts) :
    strStarts x.1 "on." = true ∧ 3 ≤ x.1.length := by
  unfold getHostSubnetMapping at hx
  split at hx
  · simp at hx
  · unfold parseTopology at hx
    rcases mem_ptFold _ _ _ hx with h | ⟨e, _, hpe⟩
    · simp at h
    · rcases parseTopologyEntry_key hpe with ⟨hostname, hk⟩
      constructor
      · unfold strStarts
        rw [hk, String.data_append]
        exact listStarts_self_append _ _
      · rw [hk, String.length_append]
        have h3 : ("on." : String).length = 3 := rfl
        omega

theorem getCnameForIp_mem {ip : String} {m : List (String × String)} {c : String}
    (h : getCnameForIp ip m = some c) : ∃ s, (c, s) ∈ m := by
  unfold getCnameForIp at h
  split at h
  · rename_i p heq
    refine ⟨p.2, ?_⟩
    rw [← Option.some.inj h]
    exact List.mem_of_find?_eq_some heq
  · exact Option.noConfusion h

theorem buildPair_cname {env : Env} {hm : List (String × String)} {r : Resource}
    {p : Pair} (h : buildPair env hm r = some p) :
    (∃ s, (p.cname, s) ∈ hm) ∧ p.cname_full = p.cname ++ "." ++ env.domain := by
  simp only [buildPair] at h
  repeat' split at h
  all_goals try exact Option.noConfusion h
  all_goals
    rw [← Option.some.inj h]
    exact ⟨getCnameForIp_mem (by assumption), rfl⟩

theorem pairs_managed (env : Env) :
    PairsManaged (getPangolinDomainCnamePairs env).1 := by
  intro p hp
  simp only [getPangolinDomainCnamePairs] at hp
  split at hp
  · exact absurd hp (by simp)
  · split at hp
    · exact absurd hp (by simp)
    · split at hp
      · exact absurd hp (by simp)
      · rcases List.mem_filterMap.mp hp with ⟨r, _, hb⟩
        rcases buildPair_cname hb with ⟨⟨s, hmem⟩, hfull⟩
        have hkey := mapping_key_managed hmem
        constructor
        · show listStarts ("on." : String).data p.cname_full.data = true
          rw [hfull, String.data_append, String.data_append, List.append_assoc]
          exact listStarts_append_mono hkey.1 _
        · rw [hfull, String.length_append, String.length_append]
          have h1 : ("." : String).length = 1 := rfl
          have h3 : 3 ≤ p.cname.length := hkey.2
          omega

theorem writeGatus_snd (serialize : GatusConfig → String) (cfg : GatusConfig)
    (file : Option String) :
    (writeGatusConfig serialize cfg file).2 = some (serialize cfg) := by
  rcases file with _ | existing
  · rfl
  · show (if (existing == serialize cfg) = true then ((false, some existing) : Bool × Option String)
          else (true, some (serialize cfg))).2 = some (serialize cfg)
    by_cases he : (existing == serialize cfg) = true
    · rw [if_pos he]
      have hx : existing = serialize cfg := by simpa using he
      rw [hx]
    · rw [if_neg he]

theorem writeGatus_self (serialize : GatusConfig → String) (cfg : GatusConfig) :
    writeGatusConfig serialize cfg (some (serialize cfg)) = (false, some (serialize cfg)) := by
  show (if (serialize cfg == serialize cfg) = true
        then ((false, some (serialize cfg)) : Bool × Option String)
        else (true, some (serialize cfg))) = (false, some (serialize cfg))
  rw [if_pos (by simp : (serialize cfg == serialize cfg) = true)]

/-- The sync configuration a cycle derives from the environment. -/
def cfgOf (env : Env) : SyncConfig := ⟨env.domain, env.ignoreSubdomains, env.keepSubdomains⟩

/-- The desired pairs a cycle computes (fixed by the environment). -/
def pairsOf (env : Env) : List Pair := (getPangolinDomainCnamePairs env).1

/-- The generator grouping state a cycle computes. -/
def groupsOf (env : Env) : List (String × String) :=
  (updateHostMapping (getPangolinDomainCnamePairs env).2).1

/-- The generator hostname set a cycle computes. -/
def hostnamesOf (env : Env) : List String :=
  (updateHostMapping (getPangolinDomainCnamePairs env).2).2

/-- The zone synchronization a cycle performs on a given zone. -/
def syncOf (env : Env) (z : List RRSet) : SyncResult :=
  syncHetznerDns (cfgOf env) env.zoneId.isSome (pairsOf env) z

/-- The Gatus configuration a cycle generates from a given starting zone. -/
def cfgGenOf (env : Env) (z : List RRSet) : GatusConfig :=
  generateGatusConfig env (groupsOf env) (hostnamesOf env) (pairsOf env) (syncOf env z).records

theorem runOnce_state (env : Env) (s : CState) :
    (runOnce env s).2 =
      ⟨⟨(syncOf env s.world.zone).zone,
        (writeGatusConfig env.serialize (cfgGenOf env s.world.zone) s.world.file).2⟩,
       groupsOf env, hostnamesOf env,
       s.calls ++ (syncOf env s.world.zone).calls,
       (writeGatusConfig env.serialize (cfgGenOf env s.world.zone) s.world.file).1⟩ := rfl

/-- Claim C1: with the external inputs fixed (the topology TXT payload,
organization/resource/target directories, zone identifier, probe
outcomes and all other oracles of the environment), running the
reconciliation cycle twice in succession issues zero zone
create/update/delete calls on the second run, the second run's
monitoring-config write is skipped because the serialized content equals
the file written by the first run, and the world is left unchanged.  The
starting zone's record-set names are assumed colon-free, as DNS names
are; the composite record ids are "name:type". -/
theorem run_twice_no_calls_and_write_skipped (env : Env) (w : World)
    (Hz : ∀ rs ∈ w.zone, ':' ∉ rs.name.data) :
    (runOnce env ⟨(runOnce env ⟨w, [], [], [], false⟩).2.world, [], [], [], false⟩).2.calls = [] ∧
    (runOnce env ⟨(runOnce env ⟨w, [], [], [], false⟩).2.world, [], [], [], false⟩).2.written = false ∧
    (runOnce env ⟨(runOnce env ⟨w, [], [], [], false⟩).2.world, [], [], [], false⟩).2.world =
      (runOnce env ⟨w, [], [], [], false⟩).2.world := by
  have hidem : syncOf env ((syncOf env w.zone).zone) =
      ⟨(syncOf env w.zone).zone, [], (syncOf env w.zone).records⟩ := by
    by_cases hzk : env.zoneId.isSome = true
    · unfold syncOf
      rw [hzk]
      exact sync_idem (cfgOf env) (pairsOf env) w.zone Hz (pairs_managed env)
    · unfold syncOf
      rw [bool_eq_false hzk]
      rfl
  have hrec : (syncOf env ((syncOf env w.zone).zone)).records =
      (syncOf env w.zone).records := by rw [hidem]
  have hcfg : cfgGenOf env ((syncOf env w.zone).zone) = cfgGenOf env w.zone := by
    unfold cfgGenOf
    rw [hrec]
  have hw1 : (runOnce env ⟨w, [], [], [], false⟩).2.world =
      ⟨(syncOf env w.zone).zone,
       (writeGatusConfig env.serialize (cfgGenOf env w.zone) w.file).2⟩ := by
    rw [runOnce_state]
  rw [hw1, runOnce_state]
  refine ⟨?_, ?_, ?_⟩
  · show [] ++ (syncOf env ((syncOf env w.zone).zone)).calls = []
    rw [hidem]
    rfl
  · show (writeGatusConfig env.serialize (cfgGenOf env ((syncOf env w.zone).zone))
        ((writeGatusConfig env.serialize (cfgGenOf env w.zone) w.file).2)).1 = false
    rw [hcfg, writeGatus_snd, writeGatus_self]
  · show (⟨(syncOf env ((syncOf env w.zone).zone)).zone,
        (writeGatusConfig env.serialize (cfgGenOf env ((syncOf env w.zone).zone))
          ((writeGatusConfig env.serialize (cfgGenOf env w.zone) w.file).2)).2⟩ : World) =
      ⟨(syncOf env w.zone).zone,
       (writeGatusConfig env.serialize (cfgGenOf env w.zone) w.file).2⟩
    rw [hidem, hcfg, writeGatus_snd, writeGatus_snd]

/-- A concrete environment exercising the full pipeline. -/
def envW : Env where
  domain := "example.test"
  ignoreSubdomains := []
  keepSubdomains := []
  pangolinOrgId := "org1"
  txtAttempts := fun _ => .ok "alpha:10.0.4.5"
  orgs := []
  resourcesFor := fun _ =>
    [⟨"res1", "", "Alpha", "alpha.example.test", "", "", "",
      [⟨some true, "10.0.4.8", 443, ""⟩]⟩]
  targetsFor := fun _ => []
  zoneId := some "z1"
  probeOpen := fun _ _ => false
  nameOverrides := fun s => s
  portOverrides := fun _ => none
  gatusInterval := ""
  gatusClient := none
  gatusAlerts := none
  allowedHttpCodes := []
  subdomainHttpCodes := []
  skipTechnicalCnames := false
  aggressiveHostFiltering := false
  serialize := fun cfg => toString cfg.endpoints.length

/-- A concrete starting world with an empty zone and no config file. -/
def wW : World := ⟨[], none⟩

/-- Witness for C1 at a concrete environment and world. -/
theorem run_twice_no_calls_and_write_skipped_witness :
    (∀ rs ∈ wW.zone, ':' ∉ rs.name.data) ∧
    ((runOnce envW ⟨(runOnce envW ⟨wW, [], [], [], false⟩).2.world, [], [], [], false⟩).2.calls = [] ∧
     (runOnce envW ⟨(runOnce envW ⟨wW, [], [], [], false⟩).2.world, [], [], [], false⟩).2.written = false ∧
     (runOnce envW ⟨(runOnce envW ⟨wW, [], [], [], false⟩).2.world, [], [], [], false⟩).2.world =
       (runOnce envW ⟨wW, [], [], [], false⟩).2.world) :=
  ⟨fun rs h => absurd h (List.not_mem_nil rs),
   run_twice_no_calls_and_write_skipped envW wW
     (fun rs h => absurd h (List.not_mem_nil rs))⟩

/-- Claim C2: the cycle entry point never propagates an exception: for
every behaviour of the four effectful steps it returns a
success/summary result; the run succeeds exactly when no step along the
executed path threw, and the summary's error list is exactly the first
thrown error message (empty when none was thrown).  runOnce is this
orchestrator instantiated with the concrete pipeline steps. -/
theorem runOnce_error_boundary {σ : Type}
    (step1 : σ → Except String ((List Pair × List (String × String)) × σ))
    (updateHM : List (String × String) → σ → σ)
    (step2 : List Pair → σ → Except String (List ZRecord × σ))
    (step3 : List Pair → List ZRecord → σ → Except String (GatusConfig × σ))
    (writeStep : GatusConfig → σ → Except String (Bool × σ)) (s : σ) :
    (runOnceGen step1 updateHM step2 step3 writeStep s).1.success =
      (runOnceFirstError step1 updateHM step2 step3 writeStep s).isNone ∧
    (runOnceGen step1 updateHM step2 step3 writeStep s).1.summary.errors =
      (runOnceFirstError step1 updateHM step2 step3 writeStep s).toList := by
  rcases h1 : step1 s with e | ⟨ph, s1⟩
  · simp [runOnceGen, runOnceFirstError, h1]
  · rcases h2 : step2 ph.1 (updateHM ph.2 s1) with e | ⟨records, s2⟩
    · simp [runOnceGen, runOnceFirstError, h1, h2]
    · rcases h3 : step3 ph.1 records s2 with e | ⟨cfg, s3⟩
      · simp [runOnceGen, runOnceFirstError, h1, h2, h3]
      · rcases h4 : writeStep cfg s3 with e | ⟨b, s4⟩
        · simp [runOnceGen, runOnceFirstError, h1, h2, h3, h4]
        · simp [runOnceGen, runOnceFirstError, h1, h2, h3, h4]

end Hashi
